import Mathlib

set_option maxRecDepth 1000000

/-!
Shallow embedding of the `snap` package of photon-dance-snap
(`src/snapshotter.go`): a durable snapshot store that persists CRC-32C
framed snapshot files, loads the newest valid one, quarantines corrupt
files, and reclaims stale auxiliary files.

Go strings and byte slices are modelled as lists of byte values
(`List Nat`); a directory is an association list from file names to file
contents.  The external protobuf codec for the `snappb` messages and the
atomic write primitive are repository code that is not under `src/`; they
are modelled from the spec where marked.
-/

namespace Snap

/-- Byte strings: Go `string` / `[]byte` values, as lists of byte values. -/
abbrev Bytes := List Nat

/-- A file name (a Go string). -/
abbrev Name := Bytes

/-- A directory state: file names with their contents, unique names
expected (`DirWF`). -/
abbrev Dir := List (Name × Bytes)

/-- The byte string `".snap"`. -/
def snapExt : Name := [46, 115, 110, 97, 112]

/-- The byte string `".broken"`. -/
def brokenExt : Name := [46, 98, 114, 111, 107, 101, 110]

/-- The byte string `"db.tmp"`. -/
def dbTmpPat : Name := [100, 98, 46, 116, 109, 112]

/-- The byte string `".snap.db"`. -/
def snapDbExt : Name := [46, 115, 110, 97, 112, 46, 100, 98]

/-- Go `strings.HasPrefix s p`. -/
def startsBytes (s p : Name) : Bool := s.take p.length == p

/-- Go `strings.HasSuffix s p`. -/
def endsBytes (s p : Name) : Bool := s.drop (s.length - p.length) == p

/-- Go `strings.TrimSuffix s p`. -/
def trimEnd (s p : Name) : Name :=
  if endsBytes s p then s.take (s.length - p.length) else s

/-- Go string comparison `s < t` (byte-wise lexicographic). -/
def goStrLt : Name → Name → Bool
  | [], [] => false
  | [], _ :: _ => true
  | _ :: _, [] => false
  | a :: s, b :: t => if a < b then true else if b < a then false else goStrLt s t

/-- One shift-xor step of the reflected CRC-32C computation;
`0x82F63B78` is the reversed Castagnoli polynomial used by
`crc32.MakeTable(crc32.Castagnoli)`. -/
def crcStep (c : Nat) : Nat := if c % 2 = 1 then (c / 2) ^^^ 0x82F63B78 else c / 2

/-- Entry `i` of Go's `crc32` table for the Castagnoli polynomial. -/
def crcTab (i : Nat) : Nat := crcStep^[8] i

/-- One byte of Go's `crc32.simpleUpdate`:
`crc = tab[byte(crc)^v] ^ (crc >> 8)`. -/
def crcByte (c v : Nat) : Nat := crcTab ((c % 256) ^^^ (v % 256)) ^^^ (c / 256)

/-- Go `crc32.Update(crc, crcTable, p)` with the Castagnoli table. -/
def crc32Update (crc : Nat) (p : Bytes) : Nat :=
  (p.foldl crcByte (crc ^^^ 0xFFFFFFFF)) ^^^ 0xFFFFFFFF

/-- The checksum stored by `save`: `crc32.Update(0, crcTable, b)`. -/
def crc32c (p : Bytes) : Nat := crc32Update 0 p

/-- `snappb.SnapshotMetadata`: the `(term, index)` provenance of a snapshot. -/
structure SnapMetadata where
  term : Nat
  index : Nat
deriving DecidableEq

/-- `snappb.Snapshot`: optional metadata plus an opaque payload. -/
structure Snapshot where
  metadata : Option SnapMetadata
  data : Bytes
deriving DecidableEq

/-- `snappb.SavedSnapshot`: the on-disk envelope `{crc, data}`. -/
structure SavedSnapshot where
  crc : Nat
  data : Bytes
deriving DecidableEq

/-- `snappb.WalSnapshot`: a `(term, index)` marker recorded by the WAL. -/
structure WalSnapshot where
  term : Nat
  index : Nat
deriving DecidableEq

/-- Little-endian 4-byte encoding of a 32-bit value. -/
def u32le (n : Nat) : Bytes :=
  [n % 256, n / 256 % 256, n / 65536 % 256, n / 16777216 % 256]

/-- Little-endian 8-byte encoding of a 64-bit value. -/
def u64le (n : Nat) : Bytes :=
  [n % 256, n / 256 % 256, n / 65536 % 256, n / 16777216 % 256,
   n / 4294967296 % 256, n / 1099511627776 % 256,
   n / 281474976710656 % 256, n / 72057594037927936 % 256]

/-- Value of a little-endian byte list. -/
def leVal (l : Bytes) : Nat := l.foldr (fun x acc => x + 256 * acc) 0

/-- Modelled from the spec: `proto.Marshal` for the on-disk envelope
`snappb.SavedSnapshot` (`{checksum: uint32, payload: bytes}`); the snappb
codec is generated repository code not present under `src/`.  The checksum
is stored in a fixed 4-byte field followed by the payload. -/
def marshalSaved (e : SavedSnapshot) : Bytes := u32le e.crc ++ e.data

/-- Modelled from the spec: `proto.Unmarshal` for `snappb.SavedSnapshot`,
the partial inverse of `marshalSaved`; fails when the envelope structure
is absent. -/
def unmarshalSaved (b : Bytes) : Option SavedSnapshot :=
  if 4 ≤ b.length then some ⟨leVal (b.take 4), b.drop 4⟩ else none

/-- Modelled from the spec: `proto.Marshal` for `snappb.Snapshot`
(`{metadata: optional {term, index: uint64}, data: bytes}`); a leading tag
records whether metadata is present. -/
def marshalSnap (s : Snapshot) : Bytes :=
  match s.metadata with
  | none => 0 :: s.data
  | some m => 1 :: (u64le m.term ++ (u64le m.index ++ s.data))

/-- Modelled from the spec: `proto.Unmarshal` for `snappb.Snapshot`, the
partial inverse of `marshalSnap`. -/
def unmarshalSnap (b : Bytes) : Option Snapshot :=
  match b with
  | 0 :: rest => some ⟨none, rest⟩
  | 1 :: rest =>
    if 16 ≤ rest.length then
      some ⟨some ⟨leVal (rest.take 8), leVal ((rest.drop 8).take 8)⟩, rest.drop 16⟩
    else none
  | _ => none

/-- Delete every binding of name `n` (effect of `os.Remove`). -/
def eraseFile (d : Dir) (n : Name) : Dir := d.filter (fun p => p.1 != n)

/-- Modelled from the spec: effect of the atomic
`pioutil.WriteAndSyncFile` primitive (repository code not under `src/`):
the name `n` is bound to exactly the written contents. -/
def writeFile (d : Dir) (n : Name) (b : Bytes) : Dir := eraseFile d n ++ [(n, b)]

/-- Effect of a successful `os.Remove`. -/
def removeFile (d : Dir) (n : Name) : Dir := eraseFile d n

/-- Effect of `os.Rename src dst`: no-op when `src` is absent (the rename
fails and the failure is only logged). -/
def renameFile (d : Dir) (src dst : Name) : Dir :=
  match List.lookup src d with
  | none => d
  | some b => writeFile (eraseFile d src) dst b

/-- Filesystem well-formedness: directory entries have distinct names. -/
def DirWF (d : Dir) : Prop := (d.map (·.1)).Nodup

instance (d : Dir) : Decidable (DirWF d) := by
  unfold DirWF
  infer_instance

/-- The error kinds surfaced by the snapshotter: `ErrNoSnapshot`,
`ErrEmptySnapshot`, `ErrCRCMismatch`, the two distinct `proto.Unmarshal`
failures, and propagated I/O errors. -/
inductive SnapErr where
  | noSnapshot
  | emptySnapshot
  | crcMismatch
  | corruptEnvelope
  | corruptSnapshot
  | ioError
deriving DecidableEq

/-- Outcome of one `os.Remove` call, as seen by the code:
success, failure satisfying `os.IsNotExist`, or any other failure. -/
inductive RemoveOutcome where
  | ok
  | notExist
  | failed
deriving DecidableEq

/-- Environment oracle giving the outcome of each `os.Remove`. -/
abbrev RemoveOracle := Name → RemoveOutcome

/-- The perfect filesystem: every `os.Remove` succeeds. -/
def rmOk : RemoveOracle := fun _ => .ok

/-- The directory listing (`Readdirnames`). -/
def listing (d : Dir) : List Name := d.map (·.1)

/-- `fmt.Sprintf("%016x", n)`, digit list form: the `k` most significant
base-16 digits of `n`. -/
def hexDigits : Nat → Nat → List Nat
  | 0, _ => []
  | k + 1, n => n / 16 ^ k :: hexDigits k (n % 16 ^ k)

/-- Lowercase hex digit byte for a digit value. -/
def hexByte (d : Nat) : Nat := if d < 10 then 48 + d else 87 + d

/-- `fmt.Sprintf("%016x", n)` as a byte string. -/
def hex16 (n : Nat) : Name := (hexDigits 16 n).map hexByte

/-- The snapshot file name `fmt.Sprintf("%016x-%016x.snap", term, index)`. -/
def snapFname (term index : Nat) : Name :=
  hex16 term ++ 45 :: (hex16 index ++ snapExt)

/-- `save`: marshal the snapshot, frame it with its CRC-32C, and write it
atomically under the name derived from its metadata. -/
def saveD (d : Dir) (s : Snapshot) (m : SnapMetadata) : Except SnapErr Unit × Dir :=
  let b := marshalSnap s
  let framed := marshalSaved ⟨crc32Update 0 b, b⟩
  (.ok (), writeFile d (snapFname m.term m.index) framed)

/-- `SaveSnap`: no-op success when metadata is absent or the index is 0. -/
def SaveSnapD (d : Dir) (s : Snapshot) : Except SnapErr Unit × Dir :=
  match s.metadata with
  | none => (.ok (), d)
  | some m => if m.index = 0 then (.ok (), d) else saveD d s m

/-- `readSnap`: read the file, reject empty contents, unmarshal the
envelope, reject empty payload or zero stored checksum, verify the
recomputed CRC-32C, then unmarshal the snapshot itself. -/
def readSnapD (d : Dir) (n : Name) : Except SnapErr Snapshot :=
  match List.lookup n d with
  | none => .error .ioError
  | some b =>
    if b.length = 0 then .error .emptySnapshot
    else
      match unmarshalSaved b with
      | none => .error .corruptEnvelope
      | some env =>
        if env.data.length = 0 || env.crc == 0 then .error .emptySnapshot
        else if crc32Update 0 env.data != env.crc then .error .crcMismatch
        else
          match unmarshalSnap env.data with
          | none => .error .corruptSnapshot
          | some snap => .ok snap

/-- `loadSnap`: read and validate one candidate; on any failure rename the
file to `<name>.broken` (best effort) and propagate the original error. -/
def loadSnapD (d : Dir) (n : Name) : Except SnapErr Snapshot × Dir :=
  match readSnapD d n with
  | .ok s => (.ok s, d)
  | .error e => (.error e, renameFile d n (n ++ brokenExt))

/-- The candidate loop of `loadMatched`: return the first candidate that
loads successfully and satisfies the predicate; exhaustion is
`ErrNoSnapshot`. -/
def loadLoop (pred : Snapshot → Bool) : Dir → List Name → Except SnapErr Snapshot × Dir
  | d, [] => (.error .noSnapshot, d)
  | d, n :: rest =>
    match loadSnapD d n with
    | (.ok s, d2) => if pred s then (.ok s, d2) else loadLoop pred d2 rest
    | (.error _, d2) => loadLoop pred d2 rest

/-- `cleanupSnapdir`: delete every `db.tmp`-prefixed file from disk; a
deletion failure other than not-exist aborts the call; all other names are
passed through. -/
def cleanupSnapdir (rm : RemoveOracle) : Dir → List Name → Except Unit (List Name) × Dir
  | d, [] => (.ok [], d)
  | d, n :: rest =>
    if startsBytes n dbTmpPat then
      match rm n with
      | .failed => (.error (), d)
      | _ => cleanupSnapdir rm (removeFile d n) rest
    else
      match cleanupSnapdir rm d rest with
      | (.ok names, d2) => (.ok (n :: names), d2)
      | (.error e, d2) => (.error e, d2)

/-- `checkSuffix`: keep the `.snap`-suffixed names (non-snap names other
than the recognized `db` file are merely warned about). -/
def checkSuffix (filenames : List Name) : List Name :=
  filenames.filter (fun n => endsBytes n snapExt)

/-- Insert into a list sorted in descending `goStrLt` order. -/
def insertDesc (x : Name) : List Name → List Name
  | [] => [x]
  | y :: ys => if goStrLt y x then x :: y :: ys else y :: insertDesc x ys

/-- `sort.Sort(sort.Reverse(sort.StringSlice _))`: sort names in
descending lexicographic order. -/
def sortDesc (l : List Name) : List Name := l.foldr insertDesc []

/-- `snapnames`: list the directory, clean up orphaned `db.tmp*` files,
keep `.snap` names, fail with `ErrNoSnapshot` when none remain, and sort
newest first. -/
def snapnamesD (rm : RemoveOracle) (d : Dir) : Except SnapErr (List Name) × Dir :=
  match cleanupSnapdir rm d (listing d) with
  | (.error _, d2) => (.error .ioError, d2)
  | (.ok names, d2) =>
    let snaps := checkSuffix names
    if snaps.isEmpty then (.error .noSnapshot, d2) else (.ok (sortDesc snaps), d2)

/-- `loadMatched`: scan the candidates newest first. -/
def loadMatchedD (rm : RemoveOracle) (d : Dir) (pred : Snapshot → Bool) :
    Except SnapErr Snapshot × Dir :=
  match snapnamesD rm d with
  | (.error e, d2) => (.error e, d2)
  | (.ok names, d2) => loadLoop pred d2 names

/-- `Load`: `loadMatched` with the always-true predicate. -/
def LoadD (rm : RemoveOracle) (d : Dir) : Except SnapErr Snapshot × Dir :=
  loadMatchedD rm d (fun _ => true)

/-- The marker loop of `LoadNewestAvailable`, already walking the reversed
marker list: the original iterates from the last marker backward. -/
def matchesMarkerRev (m : SnapMetadata) : List WalSnapshot → Bool
  | [] => false
  | w :: rest => (m.term == w.term && m.index == w.index) || matchesMarkerRev m rest

/-- The marker closure of `LoadNewestAvailable` as the source computes it:
`m := snapshot.Metadata` is dereferenced inside the marker loop, so with
absent metadata the closure returns `false` only when the loop body never
runs (empty marker list); with a non-empty marker list it dereferences a
nil pointer — a panic, modelled as `none`. -/
def walPredGo (walSnaps : List WalSnapshot) (s : Snapshot) : Option Bool :=
  match s.metadata with
  | some m => some (matchesMarkerRev m walSnaps.reverse)
  | none =>
    match walSnaps with
    | [] => some false
    | _ :: _ => none

/-- Total restriction of the marker closure, agreeing with `walPredGo` on
every snapshot whose metadata is present; used only under that proviso. -/
def walPred (walSnaps : List WalSnapshot) (s : Snapshot) : Bool :=
  match s.metadata with
  | some m => matchesMarkerRev m walSnaps.reverse
  | none => false

/-- The candidate loop of `loadMatched` run with a partial predicate:
`none` models a panic escaping the scan (the process crashes and nothing
is returned or renamed further). -/
def loadLoopP (pred : Snapshot → Option Bool) :
    Dir → List Name → Option (Except SnapErr Snapshot × Dir)
  | d, [] => some (.error .noSnapshot, d)
  | d, n :: rest =>
    match loadSnapD d n with
    | (.ok s, d2) =>
      match pred s with
      | none => none
      | some true => some (.ok s, d2)
      | some false => loadLoopP pred d2 rest
    | (.error _, d2) => loadLoopP pred d2 rest

/-- `loadMatched` with a partial predicate (`none` is a panic). -/
def loadMatchedP (rm : RemoveOracle) (d : Dir) (pred : Snapshot → Option Bool) :
    Option (Except SnapErr Snapshot × Dir) :=
  match snapnamesD rm d with
  | (.error e, d2) => some (.error e, d2)
  | (.ok names, d2) => loadLoopP pred d2 names

/-- `LoadNewestAvailable`, with the nil-metadata panic of its marker
closure modelled: `none` is the crash. -/
def LoadNewestAvailableP (rm : RemoveOracle) (d : Dir) (walSnaps : List WalSnapshot) :
    Option (Except SnapErr Snapshot × Dir) :=
  loadMatchedP rm d (walPredGo walSnaps)

/-- Value of one hex digit byte, upper or lower case, as accepted by
`strconv.ParseUint(_, 16, 64)`. -/
def hexVal (b : Nat) : Option Nat :=
  if 48 ≤ b ∧ b ≤ 57 then some (b - 48)
  else if 97 ≤ b ∧ b ≤ 102 then some (b - 87)
  else if 65 ≤ b ∧ b ≤ 70 then some (b - 55)
  else none

/-- Digit loop of `strconv.ParseUint(_, 16, 64)`: fails on a non-hex byte
or when the value leaves the unsigned 64-bit range. -/
def parseHexCore : Bytes → Nat → Option Nat
  | [], acc => some acc
  | c :: rest, acc =>
    match hexVal c with
    | none => none
    | some v =>
      if 16 * acc + v < 18446744073709551616 then parseHexCore rest (16 * acc + v)
      else none

/-- `strconv.ParseUint(s, 16, 64)`: an empty string is an error. -/
def parseHexU64 (s : Bytes) : Option Nat :=
  if s.isEmpty then none else parseHexCore s 0

/-- One iteration of the `ReleaseSnapDBs` loop over a listed name (names
carry no path separator, so `filepath.Base` is the identity here): delete
a `.snap.db` file whose parsed index is below the retained index; skip
unparseable names; a deletion failure is only logged. -/
def releaseOne (rm : RemoveOracle) (retainedIndex : Nat) (acc : Dir) (n : Name) : Dir :=
  if endsBytes n snapDbExt then
    match parseHexU64 (trimEnd n snapDbExt) with
    | none => acc
    | some index =>
      if index < retainedIndex then
        match rm n with
        | .failed => acc
        | _ => removeFile acc n
      else acc
  else acc

/-- `ReleaseSnapDBs`: reclaim stale `.snap.db` files below the retained
snapshot's index.  The caller contract (spec section 4.4) requires the
metadata to be present; with absent metadata the model leaves the
directory unchanged. -/
def ReleaseSnapDBsD (rm : RemoveOracle) (d : Dir) (snap : Snapshot) :
    Except SnapErr Unit × Dir :=
  match snap.metadata with
  | some m => (.ok (), (listing d).foldl (releaseOne rm m.index) d)
  | none => (.ok (), d)

/-- Names with the `db.tmp` prefix removed from a listing (the pass-through
result of a fully successful `cleanupSnapdir`). -/
def cleanupNames (l : List Name) : List Name :=
  l.filter (fun n => !(startsBytes n dbTmpPat))

/-- A directory after the orphan cleanup deleted every `db.tmp*` file. -/
def cleanupDir (d : Dir) : Dir :=
  d.filter (fun p => !(startsBytes p.1 dbTmpPat))

/-- The candidate names a load scan examines, newest first. -/
def candidateList (d : Dir) : List Name :=
  sortDesc (checkSuffix (cleanupNames (listing d)))

/-- Specification-side description of `loadMatched`: the first candidate,
in newest-first order, that reads and validates against the cleaned
directory and satisfies the predicate; `ErrNoSnapshot` when none does. -/
def firstMatchSpec (d : Dir) (pred : Snapshot → Bool) : Except SnapErr Snapshot :=
  match (candidateList d).findSome? (fun n =>
      match readSnapD (cleanupDir d) n with
      | .ok s => if pred s then some s else none
      | .error _ => none) with
  | some s => .ok s
  | none => .error .noSnapshot

/-- Flip bit `k` of the byte at position `pos`. -/
def flipBit (b : Bytes) (pos k : Nat) : Bytes :=
  b.set pos ((b.getD pos 0) ^^^ 2 ^ k)

instance {α β : Type} [DecidableEq α] [DecidableEq β] : DecidableEq (Except α β) := fun
  | .ok a, .ok b => if h : a = b then .isTrue (by rw [h]) else .isFalse (by simp [h])
  | .error a, .error b => if h : a = b then .isTrue (by rw [h]) else .isFalse (by simp [h])
  | .ok _, .error _ => .isFalse (by simp)
  | .error _, .ok _ => .isFalse (by simp)

/-- Example snapshot at `(term 1, index 1)`. -/
def exSnap11 : Snapshot := ⟨some ⟨1, 1⟩, [10, 11]⟩

/-- Example snapshot at `(term 1, index 5)`. -/
def exSnap15 : Snapshot := ⟨some ⟨1, 5⟩, [50]⟩

/-- Example snapshot at `(term 1, index 3)`. -/
def exSnap13 : Snapshot := ⟨some ⟨1, 3⟩, [30]⟩

/-- Example snapshot at `(term 1, index 2)`. -/
def exSnap12 : Snapshot := ⟨some ⟨1, 2⟩, [20]⟩

/-- Directory after saving snapshots at indices 1, 5 and 3 (same term). -/
def exDir153 : Dir :=
  (SaveSnapD (SaveSnapD (SaveSnapD [] exSnap11).2 exSnap15).2 exSnap13).2

/-- Directory after saving snapshots at `(1,1)` and `(1,2)`. -/
def exDir12 : Dir := (SaveSnapD (SaveSnapD [] exSnap11).2 exSnap12).2

/-- A snapshot whose marshalled form has CRC-32C equal to zero: the saved
file stores checksum 0, which `readSnap` rejects as `ErrEmptySnapshot`. -/
def zeroCrcSnap : Snapshot := ⟨some ⟨1, 1⟩, [196, 148, 217, 165]⟩

/-- A snapshot with absent metadata (the snappb message admits it). -/
def noMetaSnap : Snapshot := ⟨none, [7]⟩

/-- The file name `"z.snap"`, which sorts above every
`<term:016x>-<index:016x>.snap` name. -/
def zName : Name := [122, 46, 115, 110, 97, 112]

/-- Directory holding a valid snapshot at `(1,1)` and a newer valid
`.snap` file whose snapshot has no metadata. -/
def exDirNoMeta : Dir :=
  writeFile (SaveSnapD [] exSnap11).2 zName
    (marshalSaved ⟨crc32Update 0 (marshalSnap noMetaSnap), marshalSnap noMetaSnap⟩)

/-- An example `.snap.db` name for a given index. -/
def exDbName (ix : Nat) : Name := (hexDigits 16 ix).map hexByte ++ snapDbExt

/-- Example directory with `.snap.db` files at indices 1, 2 and 5. -/
def exDbDir : Dir := [(exDbName 1, []), (exDbName 2, []), (exDbName 5, [])]

/-- Specification-side description of which names `ReleaseSnapDBs`
deletes: `.snap.db`-suffixed names whose hex index parses and is strictly
below the retained index. -/
def releaseDeletes (retainedIndex : Nat) (n : Name) : Bool :=
  endsBytes n snapDbExt &&
    (match parseHexU64 (trimEnd n snapDbExt) with
     | some index => index < retainedIndex
     | none => false)

end Snap

namespace Snap

set_option maxRecDepth 1000000

/-! ### Basic facts about byte strings and the filesystem model -/

theorem endsBytes_append (x p : Name) : endsBytes (x ++ p) p = true := by
  simp [endsBytes, List.length_append, Nat.add_sub_cancel, List.drop_left]

theorem endsBytes_eq_drop {s p : Name} (h : endsBytes s p = true) :
    s.drop (s.length - p.length) = p := by
  simpa [endsBytes] using h

theorem endsBytes_getLast? {s p : Name} (h : endsBytes s p = true) (hp : p ≠ []) :
    s.getLast? = p.getLast? := by
  have hd := endsBytes_eq_drop h
  conv_lhs => rw [← List.take_append_drop (s.length - p.length) s]
  rw [hd, List.getLast?_append_of_ne_nil _ hp]

/-- A `.snap` name is never a `.broken` name produced by quarantine. -/
theorem snap_ne_broken {n m : Name} (h : endsBytes n snapExt = true) :
    n ≠ m ++ brokenExt := by
  intro he
  have h1 : n.getLast? = some 112 := by
    rw [endsBytes_getLast? h (by decide)]; rfl
  have h2 : (m ++ brokenExt).getLast? = some 110 := by
    rw [List.getLast?_append_of_ne_nil _ (by decide : brokenExt ≠ [])]; rfl
  rw [he, h2] at h1
  exact absurd h1 (by decide)

/-! ### C7: zero-index / absent-metadata save is a no-op -/

/-- C7: for every snapshot whose metadata is absent or whose index is 0,
`SaveSnap` returns success and leaves the directory entirely unchanged. -/
theorem c7_save_noop (d : Dir) (s : Snapshot)
    (h : s.metadata = none ∨ ∃ m, s.metadata = some m ∧ m.index = 0) :
    SaveSnapD d s = (.ok (), d) := by
  rcases h with h | ⟨m, hm, hi⟩
  · simp [SaveSnapD, h]
  · simp [SaveSnapD, hm, hi]

/-- Witness for C7 at a concrete zero-index snapshot. -/
theorem c7_save_noop_witness :
    SaveSnapD [([100, 98], [7])] ⟨some ⟨3, 0⟩, [1, 2]⟩ = (.ok (), [([100, 98], [7])]) :=
  c7_save_noop _ _ (Or.inr ⟨⟨3, 0⟩, rfl, rfl⟩)

end Snap

namespace Snap

/-! ### C3: readSnap error classification -/

/-- C3: with the file contents `b` present, `readSnap` classifies its result
through the guard cascade of the source: `EmptySnapshot` exactly for
zero-length contents or a parsed envelope with empty payload or zero stored
checksum; the envelope-parse error exactly for non-empty unparseable
contents; `CRCMismatch` exactly when the envelope parses, is non-empty with
non-zero checksum, and the recomputed CRC-32C differs from the stored one;
and success exactly for a fully valid envelope whose payload deserializes. -/
theorem c3_readSnap_classification (d : Dir) (n : Name) (b : Bytes)
    (hb : List.lookup n d = some b) :
    (readSnapD d n = .error .emptySnapshot ↔
      b = [] ∨ ∃ env, unmarshalSaved b = some env ∧ (env.data = [] ∨ env.crc = 0))
    ∧ (readSnapD d n = .error .corruptEnvelope ↔ b ≠ [] ∧ unmarshalSaved b = none)
    ∧ (readSnapD d n = .error .crcMismatch ↔
      ∃ env, unmarshalSaved b = some env ∧ env.data ≠ [] ∧ env.crc ≠ 0 ∧
        crc32Update 0 env.data ≠ env.crc)
    ∧ (∀ s, readSnapD d n = .ok s ↔
      ∃ env, unmarshalSaved b = some env ∧ env.data ≠ [] ∧ env.crc ≠ 0 ∧
        crc32Update 0 env.data = env.crc ∧ unmarshalSnap env.data = some s) := by
  by_cases hlen : b = []
  · subst hlen
    have hr : readSnapD d n = .error .emptySnapshot := by simp [readSnapD, hb]
    refine ⟨?_, ?_, ?_, ?_⟩ <;> simp [hr, unmarshalSaved]
  · have hlen' : ¬ b.length = 0 := by simpa [List.length_eq_zero] using hlen
    rcases henv : unmarshalSaved b with _ | env
    · have hr : readSnapD d n = .error .corruptEnvelope := by
        simp [readSnapD, hb, hlen', henv]
      refine ⟨?_, ?_, ?_, ?_⟩ <;> simp [hr, henv, hlen]
    · by_cases hdata : env.data = []
      · have hr : readSnapD d n = .error .emptySnapshot := by
          simp [readSnapD, hb, hlen', henv, hdata]
        refine ⟨?_, ?_, ?_, ?_⟩ <;> simp [hr, henv, hlen, hdata]
      · have hdata' : ¬ env.data.length = 0 := by
          simpa [List.length_eq_zero] using hdata
        by_cases hcrc : env.crc = 0
        · have hr : readSnapD d n = .error .emptySnapshot := by
            simp [readSnapD, hb, hlen', henv, hcrc]
          refine ⟨?_, ?_, ?_, ?_⟩ <;> simp [hr, henv, hlen, hdata, hcrc]
        · by_cases hsum : crc32Update 0 env.data = env.crc
          · rcases hsnap : unmarshalSnap env.data with _ | snap
            · have hr : readSnapD d n = .error .corruptSnapshot := by
                simp [readSnapD, hb, hlen', henv, hdata', hcrc, hsum, hsnap]
              refine ⟨?_, ?_, ?_, ?_⟩ <;>
                simp [hr, henv, hlen, hdata, hcrc, hsum, hsnap]
            · have hr : readSnapD d n = .ok snap := by
                simp [readSnapD, hb, hlen', henv, hdata', hcrc, hsum, hsnap]
              refine ⟨?_, ?_, ?_, ?_⟩ <;>
                simp [hr, henv, hlen, hdata, hcrc, hsum, hsnap]
          · have hr : readSnapD d n = .error .crcMismatch := by
              simp [readSnapD, hb, hlen', henv, hdata', hcrc, hsum]
            refine ⟨?_, ?_, ?_, ?_⟩ <;>
              simp [hr, henv, hlen, hdata, hcrc, hsum]

/-- Witness for C3 at concrete contents exercising the CRC-mismatch case. -/
theorem c3_readSnap_classification_witness :
    readSnapD [([120], marshalSaved ⟨7, [5]⟩)] [120] = .error .crcMismatch ∧
    List.lookup [120] [([120], marshalSaved ⟨7, [5]⟩)] = some (marshalSaved ⟨7, [5]⟩) := by
  refine ⟨?_, by decide⟩
  exact ((c3_readSnap_classification [([120], marshalSaved ⟨7, [5]⟩)] [120]
    (marshalSaved ⟨7, [5]⟩) (by decide)).2.2.1).2 ⟨⟨7, [5]⟩, by decide, by decide,
      by decide, by decide⟩

end Snap

namespace Snap

/-! ### Order facts about Go string comparison -/

theorem goStrLt_irrefl (a : Name) : goStrLt a a = false := by
  induction a with
  | nil => rfl
  | cons x s ih => simp [goStrLt, ih]

theorem goStrLt_asymm {a : Name} : ∀ {b : Name}, goStrLt a b = true → goStrLt b a = false := by
  induction a with
  | nil =>
    intro b h
    cases b with
    | nil => simp [goStrLt]
    | cons y t => simp [goStrLt]
  | cons x s ih =>
    intro b h
    cases b with
    | nil => simp [goStrLt] at h
    | cons y t =>
      by_cases hxy : x < y
      · simp [goStrLt, hxy, Nat.lt_asymm hxy]
      · by_cases hyx : y < x
        · simp [goStrLt, hxy, hyx] at h
        · have hs := ih (b := t) (by simpa [goStrLt, hxy, hyx] using h)
          simp [goStrLt, hxy, hyx, hs]

theorem goStrLt_total {a : Name} : ∀ {b : Name},
    goStrLt a b = false → goStrLt b a = false → a = b := by
  induction a with
  | nil =>
    intro b h1 h2
    cases b with
    | nil => rfl
    | cons y t => simp [goStrLt] at h1
  | cons x s ih =>
    intro b h1 h2
    cases b with
    | nil => simp [goStrLt] at h2
    | cons y t =>
      by_cases hxy : x < y
      · simp [goStrLt, hxy] at h1
      · by_cases hyx : y < x
        · simp [goStrLt, hyx] at h2
        · have hx : x = y := by omega
          subst hx
          have h1' : goStrLt s t = false := by simpa [goStrLt] using h1
          have h2' : goStrLt t s = false := by simpa [goStrLt] using h2
          rw [ih h1' h2']

theorem goStrLt_trans {a : Name} : ∀ {b c : Name},
    goStrLt a b = true → goStrLt b c = true → goStrLt a c = true := by
  induction a with
  | nil =>
    intro b c h1 h2
    cases b with
    | nil => simp [goStrLt] at h1
    | cons y t =>
      cases c with
      | nil => simp [goStrLt] at h2
      | cons z u => simp [goStrLt]
  | cons x s ih =>
    intro b c h1 h2
    cases b with
    | nil => simp [goStrLt] at h1
    | cons y t =>
      cases c with
      | nil => simp [goStrLt] at h2
      | cons z u =>
        by_cases hxy : x < y
        · by_cases hyz : y < z
          · simp [goStrLt, Nat.lt_trans hxy hyz]
          · by_cases hzy : z < y
            · simp [goStrLt, hyz, hzy] at h2
            · have : y = z := by omega
              subst this
              simp [goStrLt, hxy]
        · by_cases hyx : y < x
          · simp [goStrLt, hxy, hyx] at h1
          · have hx : x = y := by omega
            subst hx
            have h1' : goStrLt s t = true := by simpa [goStrLt] using h1
            by_cases hxz : x < z
            · simp [goStrLt, hxz]
            · by_cases hzx : z < x
              · simp [goStrLt, hxz, hzx] at h2
              · have hz : x = z := by omega
                subst hz
                have h2' : goStrLt t u = true := by simpa [goStrLt] using h2
                simp [goStrLt, ih h1' h2']

theorem goStrLt_false_trans {a b c : Name}
    (h1 : goStrLt a b = false) (h2 : goStrLt b c = false) : goStrLt a c = false := by
  rcases hac : goStrLt a c with _ | _
  · rfl
  · rcases hba : goStrLt b a with _ | _
    · have hab : a = b := goStrLt_total h1 hba
      subst hab
      rw [hac] at h2
      simp at h2
    · have hbc := goStrLt_trans hba hac
      rw [hbc] at h2
      simp at h2

/-! ### Lookup facts about the filesystem model -/

theorem lookup_eraseFile_self (d : Dir) (n : Name) :
    List.lookup n (eraseFile d n) = none := by
  induction d with
  | nil => rfl
  | cons p rest ih =>
    rcases p with ⟨k, v⟩
    by_cases h : k = n
    · simpa [eraseFile, List.filter_cons, h] using ih
    · have hkn : (k != n) = true := by simp [h]
      have hnk : (n == k) = false := by simp [Ne.symm h]
      simpa [eraseFile, List.filter_cons, hkn, List.lookup_cons, hnk] using ih

theorem lookup_eraseFile_ne (d : Dir) {x n : Name} (h : x ≠ n) :
    List.lookup x (eraseFile d n) = List.lookup x d := by
  induction d with
  | nil => rfl
  | cons p rest ih =>
    rcases p with ⟨k, v⟩
    by_cases hk : k = n
    · subst hk
      have hxk : (x == k) = false := by simp [h]
      simpa [eraseFile, List.filter_cons, List.lookup_cons, hxk] using ih
    · have hkn : (k != n) = true := by simp [hk]
      by_cases hxk : x = k
      · subst hxk
        simp [eraseFile, List.filter_cons, hkn, List.lookup_cons]
      · have hxk' : (x == k) = false := by simp [hxk]
        simpa [eraseFile, List.filter_cons, hkn, List.lookup_cons, hxk'] using ih

theorem lookup_writeFile_self (d : Dir) (n : Name) (b : Bytes) :
    List.lookup n (writeFile d n b) = some b := by
  simp [writeFile, List.lookup_append, lookup_eraseFile_self]

theorem lookup_writeFile_ne (d : Dir) {x n : Name} (b : Bytes) (h : x ≠ n) :
    List.lookup x (writeFile d n b) = List.lookup x d := by
  have hx : (x == n) = false := by simp [h]
  simp [writeFile, List.lookup_append, lookup_eraseFile_ne d h, List.lookup_cons, hx]

theorem lookup_renameFile_other (d : Dir) {x src dst : Name}
    (h1 : x ≠ src) (h2 : x ≠ dst) :
    List.lookup x (renameFile d src dst) = List.lookup x d := by
  unfold renameFile
  rcases hs : List.lookup src d with _ | b
  · rfl
  · rw [lookup_writeFile_ne _ _ h2, lookup_eraseFile_ne d h1]

theorem lookup_renameFile_src {d : Dir} {src dst : Name} {b : Bytes}
    (h : List.lookup src d = some b) (hne : src ≠ dst) :
    List.lookup src (renameFile d src dst) = none := by
  unfold renameFile
  rw [h, lookup_writeFile_ne _ _ hne, lookup_eraseFile_self]

theorem lookup_renameFile_dst {d : Dir} {src dst : Name} {b : Bytes}
    (h : List.lookup src d = some b) :
    List.lookup dst (renameFile d src dst) = some b := by
  unfold renameFile
  rw [h, lookup_writeFile_self]

end Snap

namespace Snap

/-! ### Sorting facts -/

theorem insertDesc_perm (x : Name) (l : List Name) : (insertDesc x l).Perm (x :: l) := by
  induction l with
  | nil => exact List.Perm.refl _
  | cons y ys ih =>
    simp only [insertDesc]
    by_cases h : goStrLt y x = true
    · rw [if_pos h]
    · rw [if_neg h]
      exact (ih.cons y).trans (List.Perm.swap x y ys)

theorem mem_insertDesc {x z : Name} {l : List Name} :
    z ∈ insertDesc x l ↔ z = x ∨ z ∈ l := by
  rw [(insertDesc_perm x l).mem_iff]
  simp

theorem insertDesc_pairwise {x : Name} {l : List Name}
    (h : l.Pairwise (fun a b => goStrLt a b = false)) :
    (insertDesc x l).Pairwise (fun a b => goStrLt a b = false) := by
  induction l with
  | nil => simp [insertDesc]
  | cons y ys ih =>
    rcases h with _ | ⟨hy, hys⟩
    simp only [insertDesc]
    by_cases hyx : goStrLt y x = true
    · rw [if_pos hyx]
      refine List.Pairwise.cons ?_ (List.Pairwise.cons hy hys)
      intro b hb
      rcases List.mem_cons.1 hb with rfl | hb
      · exact goStrLt_asymm hyx
      · exact goStrLt_false_trans (goStrLt_asymm hyx) (hy b hb)
    · rw [if_neg hyx]
      refine List.Pairwise.cons ?_ (ih hys)
      intro b hb
      rcases mem_insertDesc.1 hb with rfl | hb
      · simpa using hyx
      · exact hy b hb

theorem sortDesc_perm (l : List Name) : (sortDesc l).Perm l := by
  induction l with
  | nil => exact List.Perm.refl _
  | cons x xs ih =>
    simp only [sortDesc, List.foldr_cons]
    exact (insertDesc_perm x _).trans (ih.cons x)

theorem sortDesc_sorted (l : List Name) :
    (sortDesc l).Pairwise (fun a b => goStrLt a b = false) := by
  induction l with
  | nil => simp [sortDesc]
  | cons x xs ih => exact insertDesc_pairwise ih

/-! ### C9: auxiliary `.snap.db` reclamation -/

theorem releaseOne_rmOk (ix : Nat) (acc : Dir) (n : Name) :
    releaseOne rmOk ix acc n = if releaseDeletes ix n then removeFile acc n else acc := by
  unfold releaseOne releaseDeletes rmOk
  rcases he : endsBytes n snapDbExt with _ | _
  · simp [he]
  · rcases hp : parseHexU64 (trimEnd n snapDbExt) with _ | i
    · simp [he, hp]
    · by_cases hlt : i < ix
      · simp [he, hp, hlt]
      · simp [he, hp, hlt]

theorem releaseFold (ix : Nat) :
    ∀ (l : List Name) (d : Dir),
      l.foldl (releaseOne rmOk ix) d =
        d.filter (fun p => !(releaseDeletes ix p.1 && l.contains p.1)) := by
  intro l
  induction l with
  | nil => intro d; simp
  | cons n rest ih =>
    intro d
    rw [List.foldl_cons, releaseOne_rmOk, ih]
    by_cases hdel : releaseDeletes ix n = true
    · rw [if_pos hdel]
      unfold removeFile eraseFile
      rw [List.filter_filter]
      apply List.filter_congr
      intro p hp
      by_cases hpn : p.1 = n
      · simp [hpn, hdel]
      · simp [hpn]
    · rw [if_neg hdel]
      apply List.filter_congr
      intro p hp
      by_cases hpn : p.1 = n
      · simp [hpn, hdel]
      · simp [hpn]

/-- C9: with metadata present, `ReleaseSnapDBs` deletes exactly the
`.snap.db` entries whose hex index parses below the retained index
(unparseable names are skipped, higher or equal indices are untouched),
never propagates an individual deletion failure, and in the concrete
1/2/5-against-3 example keeps exactly the index-5 file. -/
theorem c9_release_snapdbs (d : Dir) (snap : Snapshot) (m : SnapMetadata)
    (hm : snap.metadata = some m) :
    (ReleaseSnapDBsD rmOk d snap).2 = d.filter (fun p => !(releaseDeletes m.index p.1))
    ∧ (∀ rm' : RemoveOracle, (ReleaseSnapDBsD rm' d snap).1 = .ok ())
    ∧ (ReleaseSnapDBsD rmOk exDbDir ⟨some ⟨1, 3⟩, []⟩).2 = [(exDbName 5, [])] := by
  refine ⟨?_, ?_, ?_⟩
  · simp only [ReleaseSnapDBsD, hm]
    rw [releaseFold]
    apply List.filter_congr
    intro p hp
    have hc : (listing d).contains p.1 = true := by
      have hmem : p.1 ∈ listing d := List.mem_map_of_mem (·.1) hp
      simpa [List.elem_iff] using hmem
    rw [hc, Bool.and_true]
  · intro rm'
    simp [ReleaseSnapDBsD, hm]
  · decide

/-- Witness for C9 at the concrete example directory. -/
theorem c9_release_snapdbs_witness :
    (ReleaseSnapDBsD rmOk exDbDir ⟨some ⟨1, 3⟩, []⟩).2 =
      exDbDir.filter (fun p => !(releaseDeletes 3 p.1)) :=
  (c9_release_snapdbs exDbDir ⟨some ⟨1, 3⟩, []⟩ ⟨1, 3⟩ rfl).1

end Snap

namespace Snap

/-! ### C8: orphaned `db.tmp*` cleanup during the listing phase -/

theorem cleanupSnapdir_rmOk : ∀ (l : List Name) (d : Dir),
    cleanupSnapdir rmOk d l =
      (.ok (cleanupNames l),
       d.filter (fun p => !(startsBytes p.1 dbTmpPat && l.contains p.1))) := by
  intro l
  induction l with
  | nil => intro d; simp [cleanupSnapdir, cleanupNames]
  | cons n rest ih =>
    intro d
    by_cases hpre : startsBytes n dbTmpPat = true
    · have h1 : cleanupSnapdir rmOk d (n :: rest) = cleanupSnapdir rmOk (removeFile d n) rest := by
        simp [cleanupSnapdir, hpre, rmOk]
      rw [h1, ih, Prod.ext_iff]
      refine ⟨by simp [cleanupNames, List.filter_cons, hpre], ?_⟩
      show (removeFile d n).filter _ = _
      unfold removeFile eraseFile
      rw [List.filter_filter]
      apply List.filter_congr
      intro p hp
      by_cases hpn : p.1 = n
      · simp [hpn, hpre]
      · simp [hpn]
    · have h1 : cleanupSnapdir rmOk d (n :: rest) =
          match cleanupSnapdir rmOk d rest with
          | (.ok names, d2) => (.ok (n :: names), d2)
          | (.error e, d2) => (.error e, d2) := by
        simp [cleanupSnapdir, hpre]
      rw [h1, ih]
      rw [Prod.ext_iff]
      refine ⟨by simp [cleanupNames, List.filter_cons, hpre], ?_⟩
      apply List.filter_congr
      intro p hp
      by_cases hpn : p.1 = n
      · simp [hpn, hpre]
      · simp [hpn]

theorem cleanup_dir_eq (d : Dir) :
    (cleanupSnapdir rmOk d (listing d)).2 = cleanupDir d := by
  rw [cleanupSnapdir_rmOk]
  show d.filter _ = _
  apply List.filter_congr
  intro p hp
  have hc : (listing d).contains p.1 = true := by
    have hmem : p.1 ∈ listing d := List.mem_map_of_mem (·.1) hp
    simpa [List.elem_iff] using hmem
  rw [hc, Bool.and_true]

theorem cleanupSnapdir_fails {rm : RemoveOracle} : ∀ {l : List Name} {d : Dir},
    (∃ n ∈ l, startsBytes n dbTmpPat = true ∧ rm n = .failed) →
    ∃ d2, cleanupSnapdir rm d l = (.error (), d2) := by
  intro l
  induction l with
  | nil => rintro d ⟨n, hn, _⟩; cases hn
  | cons n rest ih =>
    rintro d ⟨n', hn', hpre', hfail'⟩
    by_cases hpre : startsBytes n dbTmpPat = true
    · rcases hrm : rm n with _ | _ | _
      · rcases List.mem_cons.1 hn' with rfl | hmem
        · rw [hfail'] at hrm; cases hrm
        · have := ih (d := removeFile d n) ⟨n', hmem, hpre', hfail'⟩
          simpa [cleanupSnapdir, hpre, hrm] using this
      · rcases List.mem_cons.1 hn' with rfl | hmem
        · rw [hfail'] at hrm; cases hrm
        · have := ih (d := removeFile d n) ⟨n', hmem, hpre', hfail'⟩
          simpa [cleanupSnapdir, hpre, hrm] using this
      · exact ⟨d, by simp [cleanupSnapdir, hpre, hrm]⟩
    · have hmem : n' ∈ rest := by
        rcases List.mem_cons.1 hn' with rfl | hmem
        · exact absurd hpre' hpre
        · exact hmem
      rcases ih (d := d) ⟨n', hmem, hpre', hfail'⟩ with ⟨d2, hd2⟩
      exact ⟨d2, by simp [cleanupSnapdir, hpre, hd2]⟩

/-- C8: the candidate-listing phase deletes every `db.tmp`-prefixed entry
from disk (regardless of whether any snapshot exists) and passes every
other entry through unchanged; a deletion failure other than not-exist
makes the listing — and hence the whole load — fail. -/
theorem c8_cleanup_snapdir (d : Dir) :
    ((snapnamesD rmOk d).2 = cleanupDir d
    ∧ (∀ p ∈ cleanupDir d, startsBytes p.1 dbTmpPat = false)
    ∧ (∀ p ∈ d, startsBytes p.1 dbTmpPat = false → p ∈ cleanupDir d))
    ∧ ∀ (rm' : RemoveOracle) (pred : Snapshot → Bool),
        (∃ n ∈ listing d, startsBytes n dbTmpPat = true ∧ rm' n = .failed) →
        (snapnamesD rm' d).1 = .error .ioError
        ∧ (loadMatchedD rm' d pred).1 = .error .ioError := by
  constructor
  · refine ⟨?_, ?_, ?_⟩
    · unfold snapnamesD
      rcases hc : cleanupSnapdir rmOk d (listing d) with ⟨res, d2⟩
      have hd2 : d2 = cleanupDir d := by
        have := cleanup_dir_eq d
        rw [hc] at this
        exact this
      rcases res with _ | names
      · simpa using hd2
      · by_cases he : (checkSuffix names).isEmpty = true
        · simpa [he] using hd2
        · simpa [he] using hd2
    · intro p hp
      have := List.mem_filter.1 hp
      simpa using this.2
    · intro p hp hpre
      exact List.mem_filter.2 ⟨hp, by simp [hpre]⟩
  · intro rm' pred hex
    rcases cleanupSnapdir_fails (d := d) hex with ⟨d2, hd2⟩
    have hsn : snapnamesD rm' d = (.error .ioError, d2) := by
      simp [snapnamesD, hd2]
    refine ⟨by simp [hsn], ?_⟩
    simp [loadMatchedD, hsn]

/-- Witness for C8: a directory holding only `db.tmp123`; the orphan is
deleted on a successful filesystem, and a failing remove aborts the load. -/
theorem c8_cleanup_snapdir_witness :
    (snapnamesD rmOk [([100, 98, 46, 116, 109, 112, 49, 50, 51], [7])]).2 = [] ∧
    (loadMatchedD (fun _ => .failed) [([100, 98, 46, 116, 109, 112, 49, 50, 51], [7])]
      (fun _ => true)).1 = .error .ioError := by
  constructor
  · have h := (c8_cleanup_snapdir [([100, 98, 46, 116, 109, 112, 49, 50, 51], [7])]).1.1
    rw [h]
    decide
  · exact ((c8_cleanup_snapdir [([100, 98, 46, 116, 109, 112, 49, 50, 51], [7])]).2
      (fun _ => .failed) (fun _ => true)
      ⟨[100, 98, 46, 116, 109, 112, 49, 50, 51], by decide, by decide, rfl⟩).2

end Snap

namespace Snap

/-! ### The candidate loop of loadMatched -/

theorem readSnapD_congr {d1 d2 : Dir} {n : Name}
    (h : List.lookup n d1 = List.lookup n d2) : readSnapD d1 n = readSnapD d2 n := by
  unfold readSnapD
  rw [h]

theorem candidate_snap {d : Dir} {n : Name} (h : n ∈ candidateList d) :
    endsBytes n snapExt = true := by
  have hm := (sortDesc_perm _).mem_iff.1 h
  exact (List.mem_filter.1 hm).2

theorem candidate_nodup {d : Dir} (hwf : DirWF d) : (candidateList d).Nodup := by
  have h1 : (cleanupNames (listing d)).Nodup := List.Nodup.filter _ hwf
  have h2 : (checkSuffix (cleanupNames (listing d))).Nodup := List.Nodup.filter _ h1
  exact (sortDesc_perm _).nodup_iff.2 h2

theorem snapnamesD_rmOk_eq (d : Dir) :
    snapnamesD rmOk d =
      (if (checkSuffix (cleanupNames (listing d))).isEmpty = true then .error .noSnapshot
       else .ok (candidateList d), cleanupDir d) := by
  have hdir : (List.filter (fun p => !(startsBytes p.1 dbTmpPat && (listing d).contains p.1)) d)
      = cleanupDir d := by
    have h := cleanup_dir_eq d
    rw [cleanupSnapdir_rmOk] at h
    exact h
  unfold snapnamesD
  rw [cleanupSnapdir_rmOk, hdir]
  dsimp only
  by_cases hb : (checkSuffix (cleanupNames (listing d))).isEmpty = true
  · rw [if_pos hb, if_pos hb]
  · rw [if_neg hb, if_neg hb]
    rfl

theorem loadLoop_eq_findSome {pred : Snapshot → Bool} {d0 : Dir} :
    ∀ {l : List Name} {d : Dir},
    (∀ n ∈ l, endsBytes n snapExt = true) → l.Nodup →
    (∀ n ∈ l, List.lookup n d = List.lookup n d0) →
    (loadLoop pred d l).1 =
      match l.findSome? (fun n =>
        match readSnapD d0 n with
        | .ok s => if pred s then some s else none
        | .error _ => none) with
      | some s => .ok s
      | none => .error .noSnapshot := by
  intro l
  induction l with
  | nil =>
    intro d _ _ _
    simp [loadLoop]
  | cons n rest ih =>
    intro d hsnap hnd hlk
    have hr : readSnapD d n = readSnapD d0 n :=
      readSnapD_congr (hlk n (List.mem_cons_self n rest))
    rcases hres : readSnapD d0 n with e | s
    · have hload : loadSnapD d n = (.error e, renameFile d n (n ++ brokenExt)) := by
        simp [loadSnapD, hr, hres]
      have hstep : (loadLoop pred d (n :: rest)).1 =
          (loadLoop pred (renameFile d n (n ++ brokenExt)) rest).1 := by
        simp [loadLoop, hload]
      rw [hstep]
      have hrec := ih (d := renameFile d n (n ++ brokenExt))
        (fun m hm => hsnap m (List.mem_cons_of_mem n hm))
        hnd.of_cons
        (fun m hm => by
          have hmn : m ≠ n := by
            intro hEq
            subst hEq
            exact (List.nodup_cons.1 hnd).1 hm
          have hmb : m ≠ n ++ brokenExt :=
            snap_ne_broken (hsnap m (List.mem_cons_of_mem n hm))
          rw [lookup_renameFile_other d hmn hmb]
          exact hlk m (List.mem_cons_of_mem n hm))
      rw [hrec, List.findSome?_cons]
      simp [hres]
    · have hload : loadSnapD d n = (.ok s, d) := by
        simp [loadSnapD, hr, hres]
      by_cases hp : pred s = true
      · have hstep : (loadLoop pred d (n :: rest)).1 = .ok s := by
          simp [loadLoop, hload, hp]
        rw [hstep, List.findSome?_cons]
        simp [hres, hp]
      · have hstep : (loadLoop pred d (n :: rest)).1 = (loadLoop pred d rest).1 := by
          simp [loadLoop, hload, hp]
        rw [hstep, List.findSome?_cons]
        have hrec := ih (d := d)
          (fun m hm => hsnap m (List.mem_cons_of_mem n hm))
          hnd.of_cons
          (fun m hm => hlk m (List.mem_cons_of_mem n hm))
        rw [hrec]
        simp [hres, hp]

theorem loadLoop_preserves {pred : Snapshot → Bool} {d0 : Dir} {x : Name} {s0 : Snapshot}
    (hx : endsBytes x snapExt = true) (hok : readSnapD d0 x = .ok s0) :
    ∀ {l : List Name} {d : Dir},
    (∀ n ∈ l, endsBytes n snapExt = true) → l.Nodup →
    (∀ n ∈ l, List.lookup n d = List.lookup n d0) →
    List.lookup x d = List.lookup x d0 →
    List.lookup x (loadLoop pred d l).2 = List.lookup x d0 := by
  intro l
  induction l with
  | nil =>
    intro d _ _ _ hxd
    simpa [loadLoop] using hxd
  | cons n rest ih =>
    intro d hsnap hnd hlk hxd
    have hr : readSnapD d n = readSnapD d0 n :=
      readSnapD_congr (hlk n (List.mem_cons_self n rest))
    rcases hres : readSnapD d0 n with e | s
    · have hxn : x ≠ n := by
        intro hEq
        subst hEq
        rw [hok] at hres
        cases hres
      have hxb : x ≠ n ++ brokenExt := snap_ne_broken hx
      have hload : loadSnapD d n = (.error e, renameFile d n (n ++ brokenExt)) := by
        simp [loadSnapD, hr, hres]
      have hstep : (loadLoop pred d (n :: rest)).2 =
          (loadLoop pred (renameFile d n (n ++ brokenExt)) rest).2 := by
        simp [loadLoop, hload]
      rw [hstep]
      exact ih
        (fun m hm => hsnap m (List.mem_cons_of_mem n hm))
        hnd.of_cons
        (fun m hm => by
          have hmn : m ≠ n := by
            intro hEq
            subst hEq
            exact (List.nodup_cons.1 hnd).1 hm
          have hmb : m ≠ n ++ brokenExt :=
            snap_ne_broken (hsnap m (List.mem_cons_of_mem n hm))
          rw [lookup_renameFile_other d hmn hmb]
          exact hlk m (List.mem_cons_of_mem n hm))
        (by rw [lookup_renameFile_other d hxn hxb]; exact hxd)
    · have hload : loadSnapD d n = (.ok s, d) := by
        simp [loadSnapD, hr, hres]
      by_cases hp : pred s = true
      · have hstep : (loadLoop pred d (n :: rest)).2 = d := by
          simp [loadLoop, hload, hp]
        rw [hstep]
        exact hxd
      · have hstep : (loadLoop pred d (n :: rest)).2 = (loadLoop pred d rest).2 := by
          simp [loadLoop, hload, hp]
        rw [hstep]
        exact ih
          (fun m hm => hsnap m (List.mem_cons_of_mem n hm))
          hnd.of_cons
          (fun m hm => hlk m (List.mem_cons_of_mem n hm))
          hxd

theorem loadMatchedD_fst_eq (d : Dir) (pred : Snapshot → Bool) (hwf : DirWF d) :
    (loadMatchedD rmOk d pred).1 = firstMatchSpec d pred := by
  unfold loadMatchedD firstMatchSpec
  rw [snapnamesD_rmOk_eq]
  by_cases he : checkSuffix (cleanupNames (listing d)) = []
  · have hcand : candidateList d = [] := by simp [candidateList, he, sortDesc]
    simp [he, hcand]
  · have hloop := @loadLoop_eq_findSome pred (cleanupDir d) (candidateList d) (cleanupDir d)
      (fun n hn => candidate_snap hn) (candidate_nodup hwf) (fun n _ => rfl)
    simpa [he] using hloop

theorem loadMatchedD_snd_preserves (d : Dir) (pred : Snapshot → Bool) (hwf : DirWF d)
    {x : Name} {s0 : Snapshot} (hx : endsBytes x snapExt = true)
    (hok : readSnapD (cleanupDir d) x = .ok s0) :
    List.lookup x (loadMatchedD rmOk d pred).2 = List.lookup x (cleanupDir d) := by
  unfold loadMatchedD
  rw [snapnamesD_rmOk_eq]
  by_cases he : checkSuffix (cleanupNames (listing d)) = []
  · simp [he]
  · have hloop := @loadLoop_preserves pred (cleanupDir d) x s0 hx hok
      (candidateList d) (cleanupDir d)
      (fun n hn => candidate_snap hn) (candidate_nodup hwf) (fun n _ => rfl) rfl
    simpa [he] using hloop

end Snap

namespace Snap

/-! ### C2: functional description of loadMatched -/

/-- C2: for every directory and predicate, `loadMatched` examines the
candidates newest first over the cleaned directory and returns the first
one that reads, validates, and satisfies the predicate; a per-candidate
validation failure only moves the scan to the next candidate, and when no
candidate qualifies — in particular when there is no `.snap` file at all —
the result is `ErrNoSnapshot`.  (`firstMatchSpec` is exactly this
description; directory well-formedness means distinct file names.) -/
theorem c2_loadMatched_first (d : Dir) (pred : Snapshot → Bool) (hwf : DirWF d) :
    (loadMatchedD rmOk d pred).1 = firstMatchSpec d pred :=
  loadMatchedD_fst_eq d pred hwf

/-- Witness for C2 on the concrete three-snapshot directory with a
predicate selecting the index-3 snapshot. -/
theorem c2_loadMatched_first_witness :
    (loadMatchedD rmOk exDir153 (fun s => s.metadata == some ⟨1, 3⟩)).1 =
      firstMatchSpec exDir153 (fun s => s.metadata == some ⟨1, 3⟩) :=
  c2_loadMatched_first exDir153 (fun s => s.metadata == some ⟨1, 3⟩) (by decide)

/-! ### C10: successful candidates are never touched -/

/-- C10: a candidate that reads and validates successfully is returned or
skipped with the directory left exactly as it was (`loadSnap` only renames
on failure), and consequently any load scan — `LoadNewestAvailable` with
non-matching markers included — leaves every valid `.snap` file's binding
unchanged. -/
theorem c10_valid_untouched (d : Dir) (pred : Snapshot → Bool) (hwf : DirWF d) :
    (∀ (d' : Dir) (n : Name) (t : Snapshot),
        readSnapD d' n = .ok t → loadSnapD d' n = (.ok t, d'))
    ∧ ∀ (x : Name) (s : Snapshot), endsBytes x snapExt = true →
        readSnapD (cleanupDir d) x = .ok s →
        List.lookup x (loadMatchedD rmOk d pred).2 = List.lookup x (cleanupDir d) := by
  constructor
  · intro d' n t h
    simp [loadSnapD, h]
  · intro x s hx hok
    exact loadMatchedD_snd_preserves d pred hwf hx hok

/-- Witness for C10: scanning with a never-matching predicate leaves the
valid index-5 snapshot file untouched. -/
theorem c10_valid_untouched_witness :
    List.lookup (snapFname 1 5) (loadMatchedD rmOk exDir153 (fun _ => false)).2 =
      List.lookup (snapFname 1 5) (cleanupDir exDir153) :=
  (c10_valid_untouched exDir153 (fun _ => false) (by decide)).2
    (snapFname 1 5) exSnap15 (by decide) (by decide)

/-! ### C6: marker-based newest-available lookup -/

theorem matchesMarkerRev_iff (m : SnapMetadata) : ∀ (l : List WalSnapshot),
    matchesMarkerRev m l = true ↔ ∃ w ∈ l, w.term = m.term ∧ w.index = m.index := by
  intro l
  induction l with
  | nil => simp [matchesMarkerRev]
  | cons w rest ih =>
    rw [matchesMarkerRev]
    simp only [Bool.or_eq_true, Bool.and_eq_true, beq_iff_eq, ih, List.mem_cons]
    constructor
    · rintro (⟨h1, h2⟩ | ⟨w', hw', h1, h2⟩)
      · exact ⟨w, Or.inl rfl, h1.symm, h2.symm⟩
      · exact ⟨w', Or.inr hw', h1, h2⟩
    · rintro ⟨w', (rfl | hw'), h1, h2⟩
      · exact Or.inl ⟨h1.symm, h2.symm⟩
      · exact Or.inr ⟨w', hw', h1, h2⟩

theorem walPred_iff (ws : List WalSnapshot) (s : Snapshot) :
    walPred ws s = true ↔
      ∃ m, s.metadata = some m ∧ ∃ w ∈ ws, w.term = m.term ∧ w.index = m.index := by
  unfold walPred
  rcases hm : s.metadata with _ | m
  · simp
  · rw [matchesMarkerRev_iff]
    constructor
    · rintro ⟨w, hw, h1, h2⟩
      exact ⟨m, rfl, w, List.mem_reverse.1 hw, h1, h2⟩
    · rintro ⟨m', hm', w, hw, h1, h2⟩
      have hm'' : m' = m := (Option.some_inj.1 hm').symm
      subst hm''
      exact ⟨w, List.mem_reverse.2 hw, h1, h2⟩

theorem firstMatchSpec_isOk (d : Dir) (pred : Snapshot → Bool) :
    (∃ s, firstMatchSpec d pred = .ok s) ↔
      ∃ n ∈ candidateList d, ∃ s, readSnapD (cleanupDir d) n = .ok s ∧ pred s = true := by
  unfold firstMatchSpec
  rcases hf : (candidateList d).findSome? (fun n =>
      match readSnapD (cleanupDir d) n with
      | .ok s => if pred s then some s else none
      | .error _ => none) with _ | s
  · constructor
    · rintro ⟨s, hs⟩
      exact Except.noConfusion hs
    · rintro ⟨n, hn, s, hok, hp⟩
      have hfn := List.findSome?_eq_none_iff.1 hf n hn
      rw [hok] at hfn
      simp [hp] at hfn
  · constructor
    · rintro ⟨t, ht⟩
      obtain ⟨n, hn, hfn⟩ := List.exists_of_findSome?_eq_some hf
      rcases hread : readSnapD (cleanupDir d) n with e | u
      · rw [hread] at hfn
        exact Option.noConfusion hfn
      · rw [hread] at hfn
        dsimp only at hfn
        by_cases hp : pred u = true
        · have hus : u = s := by
            rw [if_pos hp] at hfn
            exact Option.some_inj.1 hfn
          subst hus
          exact ⟨n, hn, u, hread, hp⟩
        · rw [if_neg hp] at hfn
          exact Option.noConfusion hfn
    · intro _
      exact ⟨s, rfl⟩

theorem walPredGo_of_metadata {ws : List WalSnapshot} {s : Snapshot}
    (h : s.metadata ≠ none) : walPredGo ws s = some (walPred ws s) := by
  unfold walPredGo walPred
  rcases hm : s.metadata with _ | m
  · exact absurd hm h
  · rfl

theorem loadLoopP_wal (ws : List WalSnapshot) {d0 : Dir} :
    ∀ {l : List Name} {d : Dir},
    (∀ n ∈ l, endsBytes n snapExt = true) → l.Nodup →
    (∀ n ∈ l, List.lookup n d = List.lookup n d0) →
    (∀ n ∈ l, ∀ s, readSnapD d0 n = .ok s → s.metadata ≠ none) →
    loadLoopP (walPredGo ws) d l = some (loadLoop (walPred ws) d l) := by
  intro l
  induction l with
  | nil =>
    intro d _ _ _ _
    rfl
  | cons n rest ih =>
    intro d hsnap hnd hlk hmeta
    have hr : readSnapD d n = readSnapD d0 n :=
      readSnapD_congr (hlk n (List.mem_cons_self n rest))
    rcases hres : readSnapD d0 n with e | s
    · have hload : loadSnapD d n = (.error e, renameFile d n (n ++ brokenExt)) := by
        simp [loadSnapD, hr, hres]
      have hrec := ih (d := renameFile d n (n ++ brokenExt))
        (fun m hm => hsnap m (List.mem_cons_of_mem n hm))
        hnd.of_cons
        (fun m hm => by
          have hmn : m ≠ n := by
            intro hEq
            subst hEq
            exact (List.nodup_cons.1 hnd).1 hm
          have hmb : m ≠ n ++ brokenExt :=
            snap_ne_broken (hsnap m (List.mem_cons_of_mem n hm))
          rw [lookup_renameFile_other d hmn hmb]
          exact hlk m (List.mem_cons_of_mem n hm))
        (fun m hm => hmeta m (List.mem_cons_of_mem n hm))
      simpa [loadLoopP, loadLoop, hload] using hrec
    · have hload : loadSnapD d n = (.ok s, d) := by
        simp [loadSnapD, hr, hres]
      have hpred : walPredGo ws s = some (walPred ws s) :=
        walPredGo_of_metadata (hmeta n (List.mem_cons_self n rest) s hres)
      rcases hp : walPred ws s with _ | _
      · have hrec := ih (d := d)
          (fun m hm => hsnap m (List.mem_cons_of_mem n hm))
          hnd.of_cons
          (fun m hm => hlk m (List.mem_cons_of_mem n hm))
          (fun m hm => hmeta m (List.mem_cons_of_mem n hm))
        simpa [loadLoopP, loadLoop, hload, hpred, hp] using hrec
      · simp [loadLoopP, loadLoop, hload, hpred, hp]

theorem loadMatchedP_wal (d : Dir) (ws : List WalSnapshot) (hwf : DirWF d)
    (hmeta : ∀ n ∈ candidateList d, ∀ s,
      readSnapD (cleanupDir d) n = .ok s → s.metadata ≠ none) :
    loadMatchedP rmOk d (walPredGo ws) = some (loadMatchedD rmOk d (walPred ws)) := by
  unfold loadMatchedP loadMatchedD
  rw [snapnamesD_rmOk_eq]
  by_cases hb : (checkSuffix (cleanupNames (listing d))).isEmpty = true
  · rw [if_pos hb]
  · rw [if_neg hb]
    exact loadLoopP_wal ws (fun n hn => candidate_snap hn) (candidate_nodup hwf)
      (fun n _ => rfl) hmeta

/-- C6 (amended): provided every candidate that reads and validates
successfully has its metadata present, `LoadNewestAvailable` returns a
snapshot exactly when some valid on-disk candidate's `(term, index)`
equals an entry of the marker list (markers are checked from the end of
the list backward); in the concrete example with snapshots at `(1,1)` and
`(1,2)` and markers `[(1,1)]` it returns the index-1 snapshot despite
index-2 being newer.  The metadata proviso is forced by
`c6_load_newest_available_cex`: on a valid metadata-less candidate the
source's marker closure dereferences a nil pointer and the load panics
whenever the marker list is non-empty. -/
theorem c6_load_newest_available (d : Dir) (ws : List WalSnapshot) (hwf : DirWF d)
    (hmeta : ∀ n ∈ candidateList d, ∀ s,
      readSnapD (cleanupDir d) n = .ok s → s.metadata ≠ none) :
    ((∃ r, LoadNewestAvailableP rmOk d ws = some r ∧ ∃ s, r.1 = .ok s) ↔
      ∃ n ∈ candidateList d, ∃ s, readSnapD (cleanupDir d) n = .ok s ∧
        ∃ m, s.metadata = some m ∧ ∃ w ∈ ws, w.term = m.term ∧ w.index = m.index)
    ∧ (LoadNewestAvailableP rmOk exDir12 [⟨1, 1⟩]).map (fun r => r.1) =
        some (.ok exSnap11) := by
  constructor
  · unfold LoadNewestAvailableP
    rw [loadMatchedP_wal d ws hwf hmeta]
    have hstep : (∃ r, some (loadMatchedD rmOk d (walPred ws)) = some r ∧ ∃ s, r.1 = .ok s)
        ↔ ∃ s, (loadMatchedD rmOk d (walPred ws)).1 = .ok s := by
      constructor
      · rintro ⟨r, hr, s, hs⟩
        exact ⟨s, by rw [Option.some_inj.1 hr]; exact hs⟩
      · rintro ⟨s, hs⟩
        exact ⟨loadMatchedD rmOk d (walPred ws), rfl, s, hs⟩
    rw [hstep]
    simp only [loadMatchedD_fst_eq d (walPred ws) hwf]
    rw [firstMatchSpec_isOk]
    constructor
    · rintro ⟨n, hn, s, hok, hp⟩
      exact ⟨n, hn, s, hok, (walPred_iff ws s).1 hp⟩
    · rintro ⟨n, hn, s, hok, hex⟩
      exact ⟨n, hn, s, hok, (walPred_iff ws s).2 hex⟩
  · decide

/-- Witness for C6: the concrete marker-matching example, extracted by
applying the theorem at the example directory (its metadata proviso is
discharged for the two concrete candidates). -/
theorem c6_load_newest_available_witness :
    (LoadNewestAvailableP rmOk exDir12 [⟨1, 1⟩]).map (fun r => r.1) =
      some (.ok exSnap11) := by
  refine (c6_load_newest_available exDir12 [⟨1, 1⟩] (by decide) ?_).2
  intro n hn s hok
  have hc : candidateList exDir12 = [snapFname 1 2, snapFname 1 1] := by decide
  rw [hc] at hn
  simp only [List.mem_cons, List.not_mem_nil, or_false] at hn
  rcases hn with rfl | rfl
  · rw [show readSnapD (cleanupDir exDir12) (snapFname 1 2) = .ok exSnap12 from by decide]
      at hok
    injection hok with h
    rw [← h]
    simp [exSnap12]
  · rw [show readSnapD (cleanupDir exDir12) (snapFname 1 1) = .ok exSnap11 from by decide]
      at hok
    injection hok with h
    rw [← h]
    simp [exSnap11]

/-- C6 counterexample: in `exDirNoMeta` the valid candidate at `(1,1)`
matches the marker list `[(1,1)]`, yet `LoadNewestAvailable` returns no
snapshot at all — the newer valid candidate has no metadata, so the
source's marker closure dereferences nil and the load panics (`none`)
before the matching candidate is reached. -/
theorem c6_load_newest_available_cex :
    LoadNewestAvailableP rmOk exDirNoMeta [⟨1, 1⟩] = none ∧
    (¬ ∃ r, LoadNewestAvailableP rmOk exDirNoMeta [⟨1, 1⟩] = some r ∧
      ∃ s, r.1 = .ok s) ∧
    snapFname 1 1 ∈ candidateList exDirNoMeta ∧
    readSnapD (cleanupDir exDirNoMeta) (snapFname 1 1) = .ok exSnap11 ∧
    exSnap11.metadata = some ⟨1, 1⟩ := by
  have hnone : LoadNewestAvailableP rmOk exDirNoMeta [⟨1, 1⟩] = none := by decide
  refine ⟨hnone, ?_, by decide, by decide, rfl⟩
  rintro ⟨r, hr, -⟩
  rw [hnone] at hr
  exact Option.noConfusion hr

end Snap

namespace Snap

/-! ### C5: filename order agrees with numeric (term, index) order -/

theorem hexDigits_length (k : Nat) : ∀ n, (hexDigits k n).length = k := by
  induction k with
  | zero => intro n; rfl
  | succ k ih => intro n; simp [hexDigits, ih]

theorem hexByte_lt_iff {d1 d2 : Nat} (h1 : d1 < 16) (h2 : d2 < 16) :
    hexByte d1 < hexByte d2 ↔ d1 < d2 := by
  have H : ∀ a < 16, ∀ b < 16, (hexByte a < hexByte b ↔ a < b) := by decide
  exact H d1 h1 d2 h2

theorem hexDigits_map_lt (k : Nat) : ∀ {n m : Nat}, n < 16 ^ k → m < 16 ^ k →
    (goStrLt ((hexDigits k n).map hexByte) ((hexDigits k m).map hexByte) = true ↔ n < m) := by
  induction k with
  | zero =>
    intro n m hn hm
    have hn0 : n = 0 := Nat.lt_one_iff.1 hn
    have hm0 : m = 0 := Nat.lt_one_iff.1 hm
    subst hn0
    subst hm0
    simp [hexDigits, goStrLt]
  | succ k ih =>
    intro n m hn hm
    have hq : 0 < 16 ^ k := Nat.pos_pow_of_pos k (by omega)
    have hnd : n / 16 ^ k < 16 :=
      Nat.div_lt_of_lt_mul (by rw [← pow_succ]; exact hn)
    have hmd : m / 16 ^ k < 16 :=
      Nat.div_lt_of_lt_mul (by rw [← pow_succ]; exact hm)
    simp only [hexDigits, List.map_cons]
    by_cases h1 : n / 16 ^ k < m / 16 ^ k
    · have hlt : hexByte (n / 16 ^ k) < hexByte (m / 16 ^ k) := (hexByte_lt_iff hnd hmd).2 h1
      simp only [goStrLt, if_pos hlt]
      exact iff_of_true (by trivial) (Nat.lt_of_div_lt_div h1)
    · by_cases h2 : m / 16 ^ k < n / 16 ^ k
      · have hgt : hexByte (m / 16 ^ k) < hexByte (n / 16 ^ k) := (hexByte_lt_iff hmd hnd).2 h2
        have hnlt : ¬ hexByte (n / 16 ^ k) < hexByte (m / 16 ^ k) := by omega
        simp only [goStrLt, if_neg hnlt, if_pos hgt]
        refine iff_of_false (by simp) ?_
        intro hc
        have hle : n / 16 ^ k ≤ m / 16 ^ k := Nat.div_le_div_right (Nat.le_of_lt hc)
        omega
      · have he : n / 16 ^ k = m / 16 ^ k := by omega
        have hbe : hexByte (n / 16 ^ k) = hexByte (m / 16 ^ k) := by rw [he]
        simp only [goStrLt, hbe, if_neg (lt_irrefl _)]
        rw [ih (Nat.mod_lt _ hq) (Nat.mod_lt _ hq)]
        have hdm1 := Nat.div_add_mod n (16 ^ k)
        have hdm2 := Nat.div_add_mod m (16 ^ k)
        rw [he] at hdm1
        generalize 16 ^ k * (m / 16 ^ k) = y at hdm1 hdm2
        omega

theorem hex16_lt_iff {a b : Nat} (ha : a < 16 ^ 16) (hb : b < 16 ^ 16) :
    (goStrLt (hex16 a) (hex16 b) = true ↔ a < b) :=
  hexDigits_map_lt 16 ha hb

theorem hex16_inj {a b : Nat} (ha : a < 16 ^ 16) (hb : b < 16 ^ 16)
    (h : hex16 a = hex16 b) : a = b := by
  by_contra hne
  rcases Nat.lt_or_ge a b with hab | hab
  · have := (hex16_lt_iff ha hb).2 hab
    rw [h, goStrLt_irrefl] at this
    cases this
  · have hba : b < a := by omega
    have := (hex16_lt_iff hb ha).2 hba
    rw [h, goStrLt_irrefl] at this
    cases this

theorem goStrLt_append {xs : List Nat} : ∀ {ys as bs : List Nat},
    xs.length = ys.length →
    goStrLt (xs ++ as) (ys ++ bs) =
      (if xs = ys then goStrLt as bs else goStrLt xs ys) := by
  induction xs with
  | nil =>
    intro ys as bs h
    cases ys with
    | nil => simp
    | cons y ys' => cases h
  | cons x xs' ih =>
    intro ys as bs h
    cases ys with
    | nil => cases h
    | cons y ys' =>
      have h' : xs'.length = ys'.length := by simpa using h
      by_cases hxy : x < y
      · have hne : ¬ (x :: xs' = y :: ys') := by
          simp [List.cons.injEq]
          intro hEq
          omega
        simp [goStrLt, hxy, hne]
      · by_cases hyx : y < x
        · have hne : ¬ (x :: xs' = y :: ys') := by
            simp [List.cons.injEq]
            intro hEq
            omega
          simp [goStrLt, hxy, hyx, hne]
        · have hx : x = y := by omega
          subst hx
          have hgo : goStrLt (x :: xs' ++ as) (x :: ys' ++ bs) = goStrLt (xs' ++ as) (ys' ++ bs) := by
            simp [goStrLt]
          rw [hgo, ih h']
          by_cases hss : xs' = ys'
          · simp [hss]
          · have hne : ¬ (x :: xs' = x :: ys') := by simp [hss]
            simp [hss, hne, goStrLt]

theorem snapFname_lt_iff {t1 i1 t2 i2 : Nat}
    (ht1 : t1 < 2 ^ 64) (hi1 : i1 < 2 ^ 64) (ht2 : t2 < 2 ^ 64) (hi2 : i2 < 2 ^ 64) :
    (goStrLt (snapFname t1 i1) (snapFname t2 i2) = true ↔
      (t1 < t2 ∨ (t1 = t2 ∧ i1 < i2))) := by
  have hpow : (2 : Nat) ^ 64 = 16 ^ 16 := by decide
  rw [hpow] at ht1 hi1 ht2 hi2
  have hlen : (hex16 t1).length = (hex16 t2).length := by
    simp [hex16, hexDigits_length]
  unfold snapFname
  rw [goStrLt_append hlen]
  by_cases ht : t1 = t2
  · subst ht
    rw [if_pos rfl]
    have hgo : goStrLt (45 :: (hex16 i1 ++ snapExt)) (45 :: (hex16 i2 ++ snapExt)) =
        goStrLt (hex16 i1 ++ snapExt) (hex16 i2 ++ snapExt) := by
      simp [goStrLt]
    rw [hgo]
    have hleni : (hex16 i1).length = (hex16 i2).length := by
      simp [hex16, hexDigits_length]
    rw [goStrLt_append hleni]
    by_cases hi : i1 = i2
    · subst hi
      rw [if_pos rfl, goStrLt_irrefl]
      simp
    · have hne : ¬ (hex16 i1 = hex16 i2) := fun h => hi (hex16_inj hi1 hi2 h)
      rw [if_neg hne, hex16_lt_iff hi1 hi2]
      simp [hi]
  · have hne : ¬ (hex16 t1 = hex16 t2) := fun h => ht (hex16_inj ht1 ht2 h)
    rw [if_neg hne, hex16_lt_iff ht1 ht2]
    constructor
    · exact fun h => Or.inl h
    · rintro (h | ⟨hEq, _⟩)
      · exact h
      · exact absurd hEq ht

/-- C5: for all unsigned-64-bit pairs, the fixed-width
`<term:016x>-<index:016x>.snap` names compare lexicographically exactly as
the pairs compare numerically (term-major, index-minor); consequently
`Load` over snapshots saved at indices 1, 5 and 3 with the same term
returns the index-5 snapshot. -/
theorem c5_fname_order (t1 i1 t2 i2 : Nat)
    (ht1 : t1 < 2 ^ 64) (hi1 : i1 < 2 ^ 64) (ht2 : t2 < 2 ^ 64) (hi2 : i2 < 2 ^ 64) :
    (goStrLt (snapFname t1 i1) (snapFname t2 i2) = true ↔
      (t1 < t2 ∨ (t1 = t2 ∧ i1 < i2)))
    ∧ (LoadD rmOk exDir153).1 = .ok exSnap15 :=
  ⟨snapFname_lt_iff ht1 hi1 ht2 hi2, by decide⟩

/-- Witness for C5: the index-3 name precedes the index-5 name. -/
theorem c5_fname_order_witness :
    goStrLt (snapFname 1 3) (snapFname 1 5) = true :=
  (c5_fname_order 1 3 1 5 (by decide) (by decide) (by decide) (by decide)).1.2
    (Or.inr ⟨rfl, by decide⟩)

end Snap

namespace Snap

/-! ### CRC-32C facts -/

set_option maxRecDepth 10000

theorem crcTabTops_nodup : ((List.range 256).map (fun k => crcTab k / 16777216)).Nodup := by
  decide

theorem crcTab_lt : ∀ i < 256, crcTab i < 4294967296 := by decide

theorem crcTab_top_inj {i j : Nat} (hi : i < 256) (hj : j < 256)
    (h : crcTab i / 16777216 = crcTab j / 16777216) : i = j := by
  have hnd := crcTabTops_nodup
  have hinj := List.nodup_iff_injective_get.1 hnd
  have hlen : ((List.range 256).map (fun k => crcTab k / 16777216)).length = 256 := by simp
  have hgi : ((List.range 256).map (fun k => crcTab k / 16777216)).get ⟨i, by omega⟩ =
      crcTab i / 16777216 := by simp
  have hgj : ((List.range 256).map (fun k => crcTab k / 16777216)).get ⟨j, by omega⟩ =
      crcTab j / 16777216 := by simp
  have hfin : (⟨i, by omega⟩ : Fin ((List.range 256).map (fun k => crcTab k / 16777216)).length)
      = ⟨j, by omega⟩ := hinj (by rw [hgi, hgj]; exact h)
  simpa using congrArg Fin.val hfin

theorem xor_div_two_pow (a b k : Nat) : (a ^^^ b) / 2 ^ k = a / 2 ^ k ^^^ b / 2 ^ k := by
  have h : (a ^^^ b) >>> k = a >>> k ^^^ b >>> k := by
    apply Nat.eq_of_testBit_eq
    intro i
    simp [Nat.testBit_shiftRight, Nat.testBit_xor]
  simpa [Nat.shiftRight_eq_div_pow] using h

theorem xor_lt_256 {a b : Nat} (ha : a < 256) (hb : b < 256) : a ^^^ b < 256 := by
  have h8 : (256 : Nat) = 2 ^ 8 := by norm_num
  rw [h8] at ha hb ⊢
  exact Nat.xor_lt_two_pow ha hb

theorem xor_lt_u32 {a b : Nat} (ha : a < 4294967296) (hb : b < 4294967296) :
    a ^^^ b < 4294967296 := by
  have h32 : (4294967296 : Nat) = 2 ^ 32 := by norm_num
  rw [h32] at ha hb ⊢
  exact Nat.xor_lt_two_pow ha hb

theorem crcByte_lt {c : Nat} (hc : c < 4294967296) (v : Nat) : crcByte c v < 4294967296 := by
  unfold crcByte
  have hidx : (c % 256) ^^^ (v % 256) < 256 :=
    xor_lt_256 (Nat.mod_lt _ (by omega)) (Nat.mod_lt _ (by omega))
  exact xor_lt_u32 (crcTab_lt _ hidx) (by omega)

theorem xor_top_eq {t h : Nat} (hh : h < 16777216) :
    (t ^^^ h) / 16777216 = t / 16777216 := by
  have h24 : (16777216 : Nat) = 2 ^ 24 := by norm_num
  rw [h24] at hh ⊢
  rw [xor_div_two_pow]
  rw [Nat.div_eq_of_lt hh, Nat.xor_zero]

theorem crcByte_state_inj {c1 c2 v : Nat} (h1 : c1 < 4294967296) (h2 : c2 < 4294967296)
    (h : crcByte c1 v = crcByte c2 v) : c1 = c2 := by
  have hl1 : (c1 % 256) ^^^ (v % 256) < 256 :=
    xor_lt_256 (Nat.mod_lt _ (by omega)) (Nat.mod_lt _ (by omega))
  have hl2 : (c2 % 256) ^^^ (v % 256) < 256 :=
    xor_lt_256 (Nat.mod_lt _ (by omega)) (Nat.mod_lt _ (by omega))
  unfold crcByte at h
  have htop : crcTab ((c1 % 256) ^^^ (v % 256)) / 16777216 =
      crcTab ((c2 % 256) ^^^ (v % 256)) / 16777216 := by
    have hd := congrArg (fun x => x / 16777216) h
    dsimp only at hd
    rw [xor_top_eq (by omega), xor_top_eq (by omega)] at hd
    exact hd
  have hll := crcTab_top_inj hl1 hl2 htop
  have hT : crcTab ((c1 % 256) ^^^ (v % 256)) = crcTab ((c2 % 256) ^^^ (v % 256)) := by
    rw [hll]
  rw [hT] at h
  have hh : c1 / 256 = c2 / 256 := by
    calc c1 / 256
        = crcTab ((c2 % 256) ^^^ (v % 256)) ^^^
            (crcTab ((c2 % 256) ^^^ (v % 256)) ^^^ c1 / 256) := (Nat.xor_cancel_left _ _).symm
      _ = crcTab ((c2 % 256) ^^^ (v % 256)) ^^^
            (crcTab ((c2 % 256) ^^^ (v % 256)) ^^^ c2 / 256) := by rw [h]
      _ = c2 / 256 := Nat.xor_cancel_left _ _
  have hmod : c1 % 256 = c2 % 256 := by
    calc c1 % 256
        = (c1 % 256 ^^^ v % 256) ^^^ v % 256 := by
          rw [Nat.xor_assoc, Nat.xor_self, Nat.xor_zero]
      _ = (c2 % 256 ^^^ v % 256) ^^^ v % 256 := by rw [hll]
      _ = c2 % 256 := by rw [Nat.xor_assoc, Nat.xor_self, Nat.xor_zero]
  omega

theorem crcByte_byte_ne {c v1 v2 : Nat} (hne : v1 % 256 ≠ v2 % 256) :
    crcByte c v1 ≠ crcByte c v2 := by
  intro h
  unfold crcByte at h
  have hl1 : (c % 256) ^^^ (v1 % 256) < 256 :=
    xor_lt_256 (Nat.mod_lt _ (by omega)) (Nat.mod_lt _ (by omega))
  have hl2 : (c % 256) ^^^ (v2 % 256) < 256 :=
    xor_lt_256 (Nat.mod_lt _ (by omega)) (Nat.mod_lt _ (by omega))
  have hT : crcTab ((c % 256) ^^^ (v1 % 256)) = crcTab ((c % 256) ^^^ (v2 % 256)) := by
    calc crcTab ((c % 256) ^^^ (v1 % 256))
        = (crcTab ((c % 256) ^^^ (v1 % 256)) ^^^ c / 256) ^^^ c / 256 := by
          rw [Nat.xor_assoc, Nat.xor_self, Nat.xor_zero]
      _ = (crcTab ((c % 256) ^^^ (v2 % 256)) ^^^ c / 256) ^^^ c / 256 := by rw [h]
      _ = crcTab ((c % 256) ^^^ (v2 % 256)) := by
          rw [Nat.xor_assoc, Nat.xor_self, Nat.xor_zero]
  have hll := crcTab_top_inj hl1 hl2 (by rw [hT])
  apply hne
  calc v1 % 256
      = (c % 256) ^^^ ((c % 256) ^^^ (v1 % 256)) := (Nat.xor_cancel_left _ _).symm
    _ = (c % 256) ^^^ ((c % 256) ^^^ (v2 % 256)) := by rw [hll]
    _ = v2 % 256 := Nat.xor_cancel_left _ _

theorem foldl_crcByte_lt {p : Bytes} : ∀ {c : Nat}, c < 4294967296 →
    p.foldl crcByte c < 4294967296 := by
  induction p with
  | nil => intro c hc; simpa using hc
  | cons v rest ih =>
    intro c hc
    simpa [List.foldl_cons] using ih (crcByte_lt hc v)

theorem foldl_crcByte_inj {p : Bytes} : ∀ {c1 c2 : Nat}, c1 < 4294967296 →
    c2 < 4294967296 → c1 ≠ c2 → p.foldl crcByte c1 ≠ p.foldl crcByte c2 := by
  induction p with
  | nil => intro c1 c2 _ _ hne; simpa using hne
  | cons v rest ih =>
    intro c1 c2 h1 h2 hne
    simp only [List.foldl_cons]
    exact ih (crcByte_lt h1 v) (crcByte_lt h2 v)
      (fun hEq => hne (crcByte_state_inj h1 h2 hEq))

theorem crc32Update_lt (p : Bytes) : crc32Update 0 p < 4294967296 := by
  unfold crc32Update
  exact xor_lt_u32 (foldl_crcByte_lt (by decide)) (by decide)

theorem crc32Update_flip_ne {pre suf : Bytes} {b1 b2 : Nat}
    (h1 : b1 < 256) (h2 : b2 < 256) (hne : b1 ≠ b2) :
    crc32Update 0 (pre ++ b1 :: suf) ≠ crc32Update 0 (pre ++ b2 :: suf) := by
  unfold crc32Update
  intro h
  have hfold : (pre ++ b1 :: suf).foldl crcByte (0 ^^^ 0xFFFFFFFF) =
      (pre ++ b2 :: suf).foldl crcByte (0 ^^^ 0xFFFFFFFF) := by
    calc (pre ++ b1 :: suf).foldl crcByte (0 ^^^ 0xFFFFFFFF)
        = ((pre ++ b1 :: suf).foldl crcByte (0 ^^^ 0xFFFFFFFF) ^^^ 0xFFFFFFFF) ^^^
            0xFFFFFFFF := by rw [Nat.xor_assoc, Nat.xor_self, Nat.xor_zero]
      _ = ((pre ++ b2 :: suf).foldl crcByte (0 ^^^ 0xFFFFFFFF) ^^^ 0xFFFFFFFF) ^^^
            0xFFFFFFFF := by rw [h]
      _ = (pre ++ b2 :: suf).foldl crcByte (0 ^^^ 0xFFFFFFFF) := by
          rw [Nat.xor_assoc, Nat.xor_self, Nat.xor_zero]
  rw [List.foldl_append, List.foldl_append] at hfold
  simp only [List.foldl_cons] at hfold
  have hc : pre.foldl crcByte (0 ^^^ 0xFFFFFFFF) < 4294967296 :=
    foldl_crcByte_lt (by decide)
  have hstep : crcByte (pre.foldl crcByte (0 ^^^ 0xFFFFFFFF)) b1 ≠
      crcByte (pre.foldl crcByte (0 ^^^ 0xFFFFFFFF)) b2 :=
    crcByte_byte_ne (by rw [Nat.mod_eq_of_lt h1, Nat.mod_eq_of_lt h2]; exact hne)
  exact foldl_crcByte_inj (crcByte_lt hc b1) (crcByte_lt hc b2) hstep hfold

end Snap

namespace Snap

/-! ### Codec round trips and flipped payloads -/

theorem u64le_lt (n : Nat) : ∀ x ∈ u64le n, x < 256 := by
  intro x hx
  simp [u64le] at hx
  rcases hx with rfl | rfl | rfl | rfl | rfl | rfl | rfl | rfl <;> omega

theorem marshalSnap_ne_nil (s : Snapshot) : marshalSnap s ≠ [] := by
  rcases s with ⟨md, data⟩
  rcases md with _ | m <;> simp [marshalSnap]

theorem marshalSnap_bytes_lt {s : Snapshot} (hd : ∀ x ∈ s.data, x < 256) :
    ∀ x ∈ marshalSnap s, x < 256 := by
  rcases s with ⟨md, data⟩
  rcases md with _ | m
  · intro x hx
    simp only [marshalSnap, List.mem_cons] at hx
    rcases hx with rfl | hx
    · omega
    · exact hd x hx
  · intro x hx
    simp only [marshalSnap, List.mem_cons, List.mem_append] at hx
    rcases hx with rfl | hx | hx | hx
    · omega
    · exact u64le_lt _ x hx
    · exact u64le_lt _ x hx
    · exact hd x hx

theorem leVal_u32le {n : Nat} (h : n < 4294967296) : leVal (u32le n) = n := by
  simp [leVal, u32le]
  omega

theorem leVal_u64le {n : Nat} (h : n < 18446744073709551616) : leVal (u64le n) = n := by
  simp [leVal, u64le]
  omega

theorem unmarshal_marshal_saved (e : SavedSnapshot) (h : e.crc < 4294967296) :
    unmarshalSaved (marshalSaved e) = some e := by
  unfold marshalSaved unmarshalSaved
  have hlen4 : (u32le e.crc).length = 4 := by simp [u32le]
  have hle : 4 ≤ (u32le e.crc ++ e.data).length := by simp [u32le]
  rw [if_pos hle]
  have ht : (u32le e.crc ++ e.data).take 4 = u32le e.crc := by
    rw [← hlen4, List.take_left]
  have hd : (u32le e.crc ++ e.data).drop 4 = e.data := by
    rw [← hlen4, List.drop_left]
  rw [ht, hd, leVal_u32le h]

theorem unmarshal_marshal_snap (s : Snapshot)
    (hb : ∀ m, s.metadata = some m →
      m.term < 18446744073709551616 ∧ m.index < 18446744073709551616) :
    unmarshalSnap (marshalSnap s) = some s := by
  rcases s with ⟨md, data⟩
  rcases md with _ | m
  · rfl
  · obtain ⟨hterm, hindex⟩ := hb m rfl
    have hl8t : (u64le m.term).length = 8 := by simp [u64le]
    have hl8i : (u64le m.index).length = 8 := by simp [u64le]
    show unmarshalSnap (1 :: (u64le m.term ++ (u64le m.index ++ data))) = _
    have hun : ∀ rest : Bytes, unmarshalSnap (1 :: rest) =
        if 16 ≤ rest.length then
          some ⟨some ⟨leVal (rest.take 8), leVal ((rest.drop 8).take 8)⟩, rest.drop 16⟩
        else none := fun rest => rfl
    rw [hun]
    have hlen : 16 ≤ (u64le m.term ++ (u64le m.index ++ data)).length := by
      simp [u64le]
    rw [if_pos hlen]
    have htake : (u64le m.term ++ (u64le m.index ++ data)).take 8 = u64le m.term := by
      rw [← hl8t, List.take_left]
    have hdrop : (u64le m.term ++ (u64le m.index ++ data)).drop 8 = u64le m.index ++ data := by
      rw [← hl8t, List.drop_left]
    have htake2 : (u64le m.index ++ data).take 8 = u64le m.index := by
      rw [← hl8i, List.take_left]
    have hdrop16 : (u64le m.term ++ (u64le m.index ++ data)).drop 16 = data := by
      have h16 : (16 : Nat) = 8 + 8 := by omega
      rw [h16, ← List.drop_drop, hdrop, ← hl8i, List.drop_left]
    rw [htake, hdrop, htake2, hdrop16, leVal_u64le hterm, leVal_u64le hindex]

theorem payload_flip_ne {p : Bytes} {j k : Nat} (hj : j < p.length) (hk : k < 8)
    (hb : ∀ x ∈ p, x < 256) :
    crc32Update 0 (p.set j ((p.getD j 0) ^^^ 2 ^ k)) ≠ crc32Update 0 p := by
  have hset : p.set j ((p.getD j 0) ^^^ 2 ^ k) =
      p.take j ++ ((p.getD j 0) ^^^ 2 ^ k) :: p.drop (j + 1) := by
    rw [List.set_eq_take_append_cons_drop, if_pos hj]
  have hp : p = p.take j ++ p.getD j 0 :: p.drop (j + 1) := by
    conv_lhs => rw [← List.take_append_drop j p]
    rw [List.drop_eq_getElem_cons hj, List.getD_eq_getElem p 0 hj]
  have hbj : p.getD j 0 < 256 := by
    rw [List.getD_eq_getElem p 0 hj]
    exact hb _ (List.getElem_mem hj)
  have h2k : 2 ^ k < 256 := by
    calc 2 ^ k ≤ 2 ^ 7 := Nat.pow_le_pow_right (by omega) (by omega)
      _ < 256 := by norm_num
  have hflip_lt : (p.getD j 0) ^^^ 2 ^ k < 256 := xor_lt_256 hbj h2k
  have hne : (p.getD j 0) ^^^ 2 ^ k ≠ p.getD j 0 := by
    intro hEq
    have h0 : (2 : Nat) ^ k = 0 := by
      calc (2 : Nat) ^ k
          = p.getD j 0 ^^^ (p.getD j 0 ^^^ 2 ^ k) := (Nat.xor_cancel_left _ _).symm
        _ = p.getD j 0 ^^^ p.getD j 0 := by rw [hEq]
        _ = 0 := Nat.xor_self _
    exact absurd h0 (Nat.pos_iff_ne_zero.1 (Nat.pos_pow_of_pos k (by omega)))
  have h := @crc32Update_flip_ne (p.take j) (p.drop (j + 1))
    ((p.getD j 0) ^^^ 2 ^ k) (p.getD j 0) hflip_lt hbj hne
  rw [← hset, ← hp] at h
  exact h

end Snap

namespace Snap

/-! ### Reading saved and corrupted files -/

theorem readSnap_of_lookup_saved {d : Dir} {n : Name} {s : Snapshot}
    (hb : ∀ m, s.metadata = some m →
      m.term < 18446744073709551616 ∧ m.index < 18446744073709551616)
    (hcrc : crc32Update 0 (marshalSnap s) ≠ 0)
    (hlk : List.lookup n d =
      some (marshalSaved ⟨crc32Update 0 (marshalSnap s), marshalSnap s⟩)) :
    readSnapD d n = .ok s := by
  unfold readSnapD
  rw [hlk]
  dsimp only
  have hdata : ¬ (marshalSnap s).length = 0 := by
    simpa [List.length_eq_zero] using marshalSnap_ne_nil s
  have hlen : ¬ (marshalSaved ⟨crc32Update 0 (marshalSnap s), marshalSnap s⟩).length = 0 := by
    simp [marshalSaved, u32le]
  rw [if_neg hlen, unmarshal_marshal_saved _ (crc32Update_lt _)]
  simp [hdata, hcrc, unmarshal_marshal_snap s hb]

theorem readSnap_of_lookup_flipped {d : Dir} {n : Name} {s : Snapshot} {j k : Nat}
    (hd : ∀ x ∈ s.data, x < 256) (hj : j < (marshalSnap s).length) (hk : k < 8)
    (hcrc : crc32Update 0 (marshalSnap s) ≠ 0)
    (hlk : List.lookup n d =
      some (flipBit (marshalSaved ⟨crc32Update 0 (marshalSnap s), marshalSnap s⟩) (4 + j) k)) :
    readSnapD d n = .error .crcMismatch := by
  have hl4 : (u32le (crc32Update 0 (marshalSnap s))).length = 4 := by simp [u32le]
  have hsplit : flipBit (marshalSaved ⟨crc32Update 0 (marshalSnap s), marshalSnap s⟩) (4 + j) k =
      u32le (crc32Update 0 (marshalSnap s)) ++
        (marshalSnap s).set j (((marshalSnap s).getD j 0) ^^^ 2 ^ k) := by
    unfold flipBit marshalSaved
    dsimp only
    rw [List.set_append, if_neg (by omega)]
    have hj4 : 4 + j - (u32le (crc32Update 0 (marshalSnap s))).length = j := by omega
    have hgd : (u32le (crc32Update 0 (marshalSnap s)) ++ marshalSnap s).getD (4 + j) 0 =
        (marshalSnap s).getD j 0 := by
      rw [List.getD_append_right _ _ _ _ (by omega), hj4]
    rw [hgd, hj4]
  rw [hsplit] at hlk
  have hlenset : ((marshalSnap s).set j (((marshalSnap s).getD j 0) ^^^ 2 ^ k)).length =
      (marshalSnap s).length := List.length_set _ _ _
  unfold readSnapD
  rw [hlk]
  dsimp only
  have hlen : ¬ (u32le (crc32Update 0 (marshalSnap s)) ++
      (marshalSnap s).set j (((marshalSnap s).getD j 0) ^^^ 2 ^ k)).length = 0 := by
    simp [u32le]
  rw [if_neg hlen]
  have hum := unmarshal_marshal_saved
    ⟨crc32Update 0 (marshalSnap s),
     (marshalSnap s).set j (((marshalSnap s).getD j 0) ^^^ 2 ^ k)⟩ (crc32Update_lt _)
  simp only [marshalSaved] at hum
  rw [hum]
  have hdata : ¬ ((marshalSnap s).set j (((marshalSnap s).getD j 0) ^^^ 2 ^ k)).length = 0 := by
    rw [hlenset]
    simpa [List.length_eq_zero] using marshalSnap_ne_nil s
  have hmm := payload_flip_ne hj hk (marshalSnap_bytes_lt hd)
  have hnil := marshalSnap_ne_nil s
  simp only [List.getD_eq_getElem?_getD] at hmm
  simp [hnil, hcrc, hmm, hdata]

/-! ### C4: quarantine of failing candidates and checksum sensitivity -/

theorem ne_append_broken (n : Name) : n ≠ n ++ brokenExt := by
  intro h
  have := congrArg List.length h
  simp [brokenExt] at this

/-- C4 (amended): a candidate whose read or validation fails is renamed to
`<name>.broken` — after a successful rename the original name is gone and
the `.broken` name holds the old contents — the rename never changes the
propagated error (best effort), and flipping any single bit in the payload
region of a saved file whose stored checksum is nonzero makes the next
load attempt fail with `CRCMismatch` and quarantine the file.  (The
nonzero-checksum proviso is forced by `c4_broken_quarantine_cex`.) -/
theorem c4_broken_quarantine :
    (∀ (d : Dir) (n : Name) (e : SnapErr), readSnapD d n = .error e →
        loadSnapD d n = (.error e, renameFile d n (n ++ brokenExt)))
    ∧ (∀ (d : Dir) (n : Name), (loadSnapD d n).1 = readSnapD d n)
    ∧ (∀ (d : Dir) (n : Name) (b : Bytes) (e : SnapErr),
        List.lookup n d = some b → readSnapD d n = .error e →
        List.lookup n (loadSnapD d n).2 = none ∧
        List.lookup (n ++ brokenExt) (loadSnapD d n).2 = some b)
    ∧ (∀ (d : Dir) (n : Name) (s : Snapshot) (j k : Nat),
        (∀ x ∈ s.data, x < 256) → j < (marshalSnap s).length → k < 8 →
        crc32Update 0 (marshalSnap s) ≠ 0 →
        List.lookup n d =
          some (flipBit (marshalSaved ⟨crc32Update 0 (marshalSnap s), marshalSnap s⟩)
            (4 + j) k) →
        readSnapD d n = .error .crcMismatch ∧
        loadSnapD d n = (.error .crcMismatch, renameFile d n (n ++ brokenExt))) := by
  have hq : ∀ (d : Dir) (n : Name) (e : SnapErr), readSnapD d n = .error e →
      loadSnapD d n = (.error e, renameFile d n (n ++ brokenExt)) := by
    intro d n e h
    simp [loadSnapD, h]
  refine ⟨hq, ?_, ?_, ?_⟩
  · intro d n
    rcases h : readSnapD d n with e | t <;> simp [loadSnapD, h]
  · intro d n b e hlk hread
    rw [hq d n e hread]
    constructor
    · exact lookup_renameFile_src hlk (ne_append_broken n)
    · exact lookup_renameFile_dst hlk
  · intro d n s j k hd hj hk hcrc hlk
    have hread := readSnap_of_lookup_flipped hd hj hk hcrc hlk
    exact ⟨hread, hq d n _ hread⟩

/-- Witness for C4: a concrete saved file with payload bit 0 of byte 0
flipped fails with `CRCMismatch`. -/
theorem c4_broken_quarantine_witness :
    readSnapD [([120],
      flipBit (marshalSaved ⟨crc32Update 0 (marshalSnap exSnap11), marshalSnap exSnap11⟩)
        (4 + 0) 0)] [120] = .error .crcMismatch :=
  (c4_broken_quarantine.2.2.2 [([120],
      flipBit (marshalSaved ⟨crc32Update 0 (marshalSnap exSnap11), marshalSnap exSnap11⟩)
        (4 + 0) 0)] [120] exSnap11 0 0
    (by decide) (by decide) (by decide) (by decide) (by decide)).1

/-- C4 counterexample: the claim as stated fails for a saved snapshot whose
framed CRC-32C is zero — the flipped file is rejected as `EmptySnapshot`
(not `CRCMismatch`) because the stored checksum is zero. -/
theorem c4_broken_quarantine_cex :
    crc32Update 0 (marshalSnap zeroCrcSnap) = 0 ∧
    readSnapD [([120],
      flipBit (marshalSaved ⟨crc32Update 0 (marshalSnap zeroCrcSnap), marshalSnap zeroCrcSnap⟩)
        (4 + 0) 0)] [120] = .error .emptySnapshot ∧
    readSnapD [([120],
      flipBit (marshalSaved ⟨crc32Update 0 (marshalSnap zeroCrcSnap), marshalSnap zeroCrcSnap⟩)
        (4 + 0) 0)] [120] ≠ .error .crcMismatch := by
  refine ⟨by decide, by decide, by decide⟩

end Snap

namespace Snap

/-! ### C1: round trip through save and load -/

theorem DirWF_writeFile {d : Dir} (hwf : DirWF d) (n : Name) (b : Bytes) :
    DirWF (writeFile d n b) := by
  unfold DirWF writeFile
  rw [List.map_append, List.nodup_append]
  refine ⟨List.Nodup.sublist (List.Sublist.map _ (List.filter_sublist d)) hwf, by simp, ?_⟩
  intro a ha hb2
  simp only [List.map_cons, List.map_nil, List.mem_singleton] at hb2
  subst hb2
  rcases List.mem_map.1 ha with ⟨p, hp, hpa⟩
  have h2 := (List.mem_filter.1 hp).2
  rw [bne_iff_ne] at h2
  exact h2 hpa

theorem snapFname_snapExt (t i : Nat) : endsBytes (snapFname t i) snapExt = true := by
  have h : snapFname t i = (hex16 t ++ 45 :: hex16 i) ++ snapExt := by
    simp [snapFname, List.append_assoc]
  rw [h]
  exact endsBytes_append _ _

theorem hexByte_ne_46 (x : Nat) : hexByte x ≠ 46 := by
  unfold hexByte
  split <;> omega

theorem snapFname_not_dbTmp (t i : Nat) : startsBytes (snapFname t i) dbTmpPat = false := by
  rcases hs : startsBytes (snapFname t i) dbTmpPat with _ | _
  · rfl
  · exfalso
    have heq : (snapFname t i).take dbTmpPat.length = dbTmpPat := by
      simpa [startsBytes] using hs
    have h2 : (snapFname t i)[2]? = some 46 := by
      have hc := congrArg (fun l => l[2]?) heq
      simp only [List.getElem?_take] at hc
      simpa [dbTmpPat] using hc
    have hun : snapFname t i =
        hexByte (t / 16 ^ 15) :: hexByte (t % 16 ^ 15 / 16 ^ 14) ::
          hexByte (t % 16 ^ 15 % 16 ^ 14 / 16 ^ 13) ::
          ((hexDigits 13 (t % 16 ^ 15 % 16 ^ 14 % 16 ^ 13)).map hexByte ++
            (45 :: (hex16 i ++ snapExt))) := rfl
    rw [hun] at h2
    simp at h2
    exact hexByte_ne_46 _ h2

theorem lookup_cleanupDir {n : Name} (h : startsBytes n dbTmpPat = false) :
    ∀ d : Dir, List.lookup n (cleanupDir d) = List.lookup n d := by
  intro d
  induction d with
  | nil => rfl
  | cons p rest ih =>
    rcases p with ⟨k, v⟩
    by_cases hp : startsBytes k dbTmpPat = true
    · have hne : (n == k) = false := by
        simp only [beq_eq_false_iff_ne, ne_eq]
        intro hEq
        rw [hEq, hp] at h
        cases h
      simpa [cleanupDir, List.filter_cons, hp, List.lookup_cons, hne] using ih
    · have hp' : (!startsBytes k dbTmpPat) = true := by
        simp [Bool.eq_false_iff.2 hp]
      by_cases hnk : n = k
      · subst hnk
        simp [cleanupDir, List.filter_cons, hp', List.lookup_cons]
      · have hne : (n == k) = false := by simp [hnk]
        simpa [cleanupDir, List.filter_cons, hp', List.lookup_cons, hne] using ih

theorem snapFname_mem_candidates (d : Dir) (t i : Nat) (b : Bytes) :
    snapFname t i ∈ candidateList (writeFile d (snapFname t i) b) := by
  apply (sortDesc_perm _).mem_iff.2
  apply List.mem_filter.2
  refine ⟨?_, snapFname_snapExt t i⟩
  apply List.mem_filter.2
  refine ⟨?_, by simp [snapFname_not_dbTmp]⟩
  unfold listing writeFile
  rw [List.map_append]
  exact List.mem_append.2 (Or.inr (by simp))

theorem findSome?_first {α β : Type} {f : α → Option β} {x : α} {v : β} :
    ∀ {pre suf : List α}, (∀ n ∈ pre, f n = none) → f x = some v →
    (pre ++ x :: suf).findSome? f = some v := by
  intro pre
  induction pre with
  | nil =>
    intro suf h hx
    simp [List.findSome?_cons, hx]
  | cons a pre' ih =>
    intro suf h hx
    have ha : f a = none := h a (List.mem_cons_self _ _)
    rw [List.cons_append, List.findSome?_cons, ha]
    exact ih (fun n hn => h n (List.mem_cons_of_mem _ hn)) hx

theorem firstMatchSpec_of_first {d : Dir} {pred : Snapshot → Bool} {x : Name} {s : Snapshot}
    {pre suf : List Name} (hsplit : candidateList d = pre ++ x :: suf)
    (hpre : ∀ n ∈ pre, (match readSnapD (cleanupDir d) n with
      | .ok t => if pred t then some t else none
      | .error _ => none) = none)
    (hx : readSnapD (cleanupDir d) x = .ok s) (hps : pred s = true) :
    firstMatchSpec d pred = .ok s := by
  unfold firstMatchSpec
  rw [hsplit, findSome?_first (v := s) hpre (by simp [hx, hps])]

/-- C1 (amended): saving a snapshot with metadata present, non-zero index,
uint64 fields, and a non-zero framed CRC-32C into a well-formed directory
and loading back — with the saved snapshot the newest valid candidate —
returns exactly the saved snapshot.  (The nonzero-CRC proviso is forced by
`c1_round_trip_cex`.) -/
theorem c1_round_trip (d : Dir) (s : Snapshot) (m : SnapMetadata)
    (hwf : DirWF d) (hm : s.metadata = some m) (hi : m.index ≠ 0)
    (ht64 : m.term < 2 ^ 64) (hi64 : m.index < 2 ^ 64)
    (hcrc : crc32Update 0 (marshalSnap s) ≠ 0)
    (hnewest : ∀ n ∈ candidateList (SaveSnapD d s).2,
      goStrLt (snapFname m.term m.index) n = true →
      ∃ e, readSnapD (cleanupDir (SaveSnapD d s).2) n = .error e) :
    (LoadD rmOk (SaveSnapD d s).2).1 = .ok s := by
  have hd1 : (SaveSnapD d s).2 =
      writeFile d (snapFname m.term m.index)
        (marshalSaved ⟨crc32Update 0 (marshalSnap s), marshalSnap s⟩) := by
    simp [SaveSnapD, hm, hi, saveD]
  have hwf1 : DirWF (SaveSnapD d s).2 := by
    rw [hd1]
    exact DirWF_writeFile hwf _ _
  have hmem : snapFname m.term m.index ∈ candidateList (SaveSnapD d s).2 := by
    rw [hd1]
    exact snapFname_mem_candidates d m.term m.index _
  have hlk1 : List.lookup (snapFname m.term m.index) (SaveSnapD d s).2 =
      some (marshalSaved ⟨crc32Update 0 (marshalSnap s), marshalSnap s⟩) := by
    rw [hd1]
    exact lookup_writeFile_self d _ _
  have hlkc : List.lookup (snapFname m.term m.index) (cleanupDir (SaveSnapD d s).2) =
      some (marshalSaved ⟨crc32Update 0 (marshalSnap s), marshalSnap s⟩) := by
    rw [lookup_cleanupDir (snapFname_not_dbTmp m.term m.index)]
    exact hlk1
  have hb : ∀ m', s.metadata = some m' →
      m'.term < 18446744073709551616 ∧ m'.index < 18446744073709551616 := by
    intro m' hm'
    rw [hm] at hm'
    have hmm' := Option.some_inj.1 hm'
    subst hmm'
    have h64 : (2 : Nat) ^ 64 = 18446744073709551616 := by norm_num
    rw [h64] at ht64 hi64
    exact ⟨ht64, hi64⟩
  have hok : readSnapD (cleanupDir (SaveSnapD d s).2) (snapFname m.term m.index) = .ok s :=
    readSnap_of_lookup_saved hb hcrc hlkc
  obtain ⟨pre, suf, hsplit⟩ := List.append_of_mem hmem
  have hsorted : (candidateList (SaveSnapD d s).2).Pairwise
      (fun a b => goStrLt a b = false) := sortDesc_sorted _
  rw [hsplit] at hsorted
  have hnd := candidate_nodup hwf1
  rw [hsplit] at hnd
  have hpre : ∀ n ∈ pre,
      (match readSnapD (cleanupDir (SaveSnapD d s).2) n with
        | .ok t => if (fun _ => true) t then some t else none
        | .error _ => none) = none := by
    intro n hn
    have hR : goStrLt n (snapFname m.term m.index) = false :=
      (List.pairwise_append.1 hsorted).2.2 n hn _ (List.mem_cons_self _ _)
    have hne : n ≠ snapFname m.term m.index := by
      intro hEq
      rw [hEq] at hn
      exact (List.nodup_append.1 hnd).2.2 hn (List.mem_cons_self _ _)
    have hgt : goStrLt (snapFname m.term m.index) n = true := by
      rcases hfn : goStrLt (snapFname m.term m.index) n with _ | _
      · exact absurd (goStrLt_total hfn hR) (fun h => hne h.symm)
      · rfl
    obtain ⟨e, he⟩ := hnewest n
      (by rw [hsplit]; exact List.mem_append.2 (Or.inl hn)) hgt
    simp [he]
  unfold LoadD
  rw [loadMatchedD_fst_eq _ _ hwf1,
    firstMatchSpec_of_first hsplit hpre hok rfl]

/-- Witness for C1 at a concrete snapshot saved into the empty directory. -/
theorem c1_round_trip_witness :
    (LoadD rmOk (SaveSnapD [] exSnap11).2).1 = .ok exSnap11 := by
  have hcand : candidateList (SaveSnapD [] exSnap11).2 = [snapFname 1 1] := by decide
  exact c1_round_trip [] exSnap11 ⟨1, 1⟩ (by decide) rfl (by decide)
    (by decide) (by decide) (by decide)
    (by
      intro n hn hgt
      rw [hcand] at hn
      simp at hn
      subst hn
      exact absurd hgt (by decide))

/-- C1 counterexample: a snapshot whose framed CRC-32C is zero has
metadata present and index 1, yet saving then loading does not return it —
the load fails with `NoSnapshot` because the saved file's zero stored
checksum is rejected as an empty snapshot. -/
theorem c1_round_trip_cex :
    zeroCrcSnap.metadata = some ⟨1, 1⟩ ∧
    (LoadD rmOk (SaveSnapD [] zeroCrcSnap).2).1 = .error .noSnapshot ∧
    (LoadD rmOk (SaveSnapD [] zeroCrcSnap).2).1 ≠ .ok zeroCrcSnap := by
  refine ⟨rfl, by decide, by decide⟩

end Snap
